import Mathlib

/-!
Verification development for the procedural PCB layout and routing engine
(placement.py and routing.py).  The Python source is shallowly embedded over
exact rationals; every numpy pseudo-random draw is modelled by an explicit
oracle stream Rng consumed in program order, so that each embedded
function is a pure, executable function of its inputs and of the oracle.
Transcendental helpers used by the source (pnoise2, sqrt, cos, sin) are
modelled as oracle function parameters; all claims proved below are either
independent of those oracles or quantified over them.
-/

namespace PCB

/-- Oracle for the global numpy PRNG: a stream of float draws (values that
np.random.random / np.random.uniform produce, in consumption order) and a
stream of integer draws (values behind np.random.randint / np.random.choice
and the Fisher-Yates indices of np.random.shuffle). -/
structure Rng where
  floats : ℕ → ℚ
  ints : ℕ → ℕ

/-- Position in the two oracle streams (next unread float / int index). -/
structure RState where
  f : ℕ
  i : ℕ
  deriving Repr, DecidableEq

/-- Read one float draw (models np.random.random(), value expected in [0,1)). -/
def drawFloat (r : Rng) (s : RState) : ℚ × RState :=
  (r.floats s.f, ⟨s.f + 1, s.i⟩)

/-- Read one integer draw in [0, n) (models np.random.randint(0, n) and
np.random.choice over n alternatives); the oracle value is reduced mod n so
that every legal numpy outcome is representable and no illegal one is
(np.random.randint(0, 0) raises; the mod-0 value models that call's result
as arbitrary and is never relied on). -/
def drawInt (r : Rng) (s : RState) (n : ℕ) : ℕ × RState :=
  (r.ints s.i % n, ⟨s.f, s.i + 1⟩)

/-- Read one uniform draw in [a, b] (models np.random.uniform(a, b) as
a + (b - a) * u for a unit draw u). -/
def drawUniform (r : Rng) (s : RState) (a b : ℚ) : ℚ × RState :=
  let (u, s1) := drawFloat r s
  (a + (b - a) * u, s1)

/-- Truncation toward zero, Python's int() on a float. -/
def pyTrunc (q : ℚ) : ℤ :=
  q.num.tdiv (q.den : ℤ)

/-- Nonnegative array index from a rational coordinate: int() of the value,
clipped at zero (the source always bounds-checks nonnegativity first). -/
def qIdx (q : ℚ) : ℕ :=
  (pyTrunc q).toNat

/-- Swap the elements at positions i and j of a list (helper for the
Fisher-Yates shuffle used by np.random.shuffle). -/
def listSwap (l : List α) (i j : ℕ) : List α :=
  match l[i]?, l[j]? with
  | some a, some b => (l.set i b).set j a
  | _, _ => l

/-- One pass of numpy's shuffle: for i = n-1 down to 1, draw j in [0, i+1)
and swap positions i and j.  The recursion argument is the current i. -/
def shuffleGo (r : Rng) (l : List α) (s : RState) : ℕ → List α × RState
  | 0 => (l, s)
  | i + 1 =>
    let (j, s1) := drawInt r s (i + 2)
    shuffleGo r (listSwap l (i + 1) j) s1 i

/-- np.random.shuffle: Fisher-Yates driven by the integer oracle. -/
def shuffle (r : Rng) (s : RState) (l : List α) : List α × RState :=
  match l.length with
  | 0 => (l, s)
  | 1 => (l, s)
  | n + 2 => shuffleGo r l s (n + 1)

/-- Component category tag, the comp_type strings of placement.py. -/
inductive CompType where
  | large | small | medium | smallMed | cap | connector | testpoint | generic
  deriving Repr, DecidableEq

/-- The POC Component of placement.py: size (w, h), pin count, location,
placement threshold, orthogonal rotation in degrees, category tag and the
footprint name assigned during placement. -/
structure Comp where
  w : ℚ
  h : ℚ
  numPins : ℕ
  x : ℚ
  y : ℚ
  threshold : ℚ
  rotation : ℕ
  compType : CompType
  footprint : String
  deriving Repr, DecidableEq

instance : Inhabited Comp := ⟨⟨0, 0, 0, 0, 0, 0, 0, .generic, ""⟩⟩

/-- Component.get_bounds: the axis-aligned bounding box (xmin, ymin, xmax,
ymax), with width and height swapped for 90/270 degree rotations. -/
def Comp.getBounds (c : Comp) : ℚ × ℚ × ℚ × ℚ :=
  let wh := if c.rotation = 90 ∨ c.rotation = 270 then (c.h, c.w) else (c.w, c.h)
  (c.x - wh.1 / 2, c.y - wh.2 / 2, c.x + wh.1 / 2, c.y + wh.2 / 2)

/-- Component.overlaps_with: inflate this component's bounding box by
min_clearance on every side and test axis-aligned overlap with the other
component's bounding box. -/
def Comp.overlapsWith (c other : Comp) (minClearance : ℚ) : Bool :=
  let (x1min, y1min, x1max, y1max) := c.getBounds
  let (x2min, y2min, x2max, y2max) := other.getBounds
  let x1min := x1min - minClearance
  let y1min := y1min - minClearance
  let x1max := x1max + minClearance
  let y1max := y1max + minClearance
  let noOverlap := x1max ≤ x2min ∨ x2max ≤ x1min ∨ y1max ≤ y2min ∨ y2max ≤ y1min
  !(decide noOverlap)

/-- Component.can_place: inside the noise map bounds, noise at the location
at least the threshold, and no overlap (at the default 1.0mm clearance)
with any component of the given list.  noiseMap is indexed (row, column)
and has shape (mapH, mapW). -/
def Comp.canPlace (c : Comp) (noiseMap : ℕ → ℕ → ℚ) (mapH mapW : ℕ)
    (placed : List Comp) : Bool :=
  if c.x < 0 ∨ c.x ≥ (mapW : ℚ) ∨ c.y < 0 ∨ c.y ≥ (mapH : ℚ) then false
  else if noiseMap (qIdx c.y) (qIdx c.x) < c.threshold then false
  else placed.all (fun p => !(c.overlapsWith p 1))

/-- Grid cell emitted by create_adaptive_grid: padded rectangle plus the
noise value sampled at the unpadded cell's center. -/
structure GridCell where
  x : ℚ
  y : ℚ
  w : ℚ
  h : ℚ
  nv : ℚ
  deriving Repr, DecidableEq

instance : Inhabited GridCell := ⟨⟨0, 0, 0, 0, 0⟩⟩

/-- get_cell_size of create_adaptive_grid: map a noise value to one of the
discrete sizes; note the Python int() truncation (not rounding) of
(1 - noise) * (len - 1), then clamping into range. -/
def getCellSize (sizes : List ℚ) (noiseValue : ℚ) : ℚ :=
  let index := pyTrunc ((1 - noiseValue) * ((sizes.length : ℚ) - 1))
  let index := max 0 (min ((sizes.length : ℤ) - 1) index)
  sizes.getD index.toNat 0

/-- Noise sample used by create_adaptive_grid at rational coordinates
(clipped to the map). -/
def gridSample (noiseMap : ℕ → ℕ → ℚ) (mapH mapW : ℕ) (y x : ℚ) : ℚ :=
  noiseMap (min (qIdx y) (mapH - 1)) (min (qIdx x) (mapW - 1))

/-- Height chosen for the row starting at y: the cell size of the noise
sample at (x = 0, y), clipped to the remaining board height.  This is the
row_height the source fixes at the first cell of each row. -/
def rowHeightAt (noiseMap : ℕ → ℕ → ℚ) (mapH mapW : ℕ) (sizes : List ℚ)
    (y : ℚ) : ℚ :=
  min (getCellSize sizes (gridSample noiseMap mapH mapW y 0)) ((mapH : ℚ) - y)

/-- Inner loop of create_adaptive_grid, sweeping one row at height rowH
from abscissa x; fuel bounds the iteration count. -/
def rowCells (noiseMap : ℕ → ℕ → ℚ) (mapH mapW : ℕ) (sizes : List ℚ)
    (padding : ℚ) (y rowH : ℚ) : ℕ → ℚ → List GridCell
  | 0, _ => []
  | fuel + 1, x =>
    if x < (mapW : ℚ) then
      let tempNoise := gridSample noiseMap mapH mapW y x
      let cellWidth := min (getCellSize sizes tempNoise) ((mapW : ℚ) - x)
      let cellHeight := rowH
      let nv := gridSample noiseMap mapH mapW (y + cellHeight / 2) (x + cellWidth / 2)
      let cell : GridCell :=
        ⟨x + padding, y + padding, max (1/10) (cellWidth - 2 * padding),
          max (1/10) (cellHeight - 2 * padding), nv⟩
      cell :: rowCells noiseMap mapH mapW sizes padding y rowH fuel (x + cellWidth)
    else []

/-- Outer loop of create_adaptive_grid, sweeping rows from ordinate y. -/
def gridRows (noiseMap : ℕ → ℕ → ℚ) (mapH mapW : ℕ) (sizes : List ℚ)
    (padding : ℚ) : ℕ → ℚ → List GridCell
  | 0, _ => []
  | fuel + 1, y =>
    if y < (mapH : ℚ) then
      let rowH := rowHeightAt noiseMap mapH mapW sizes y
      rowCells noiseMap mapH mapW sizes padding y rowH (fuel + 1) 0 ++
        gridRows noiseMap mapH mapW sizes padding fuel (y + rowH)
    else []

/-- create_adaptive_grid: row-major sweep where the first cell of each row
fixes the row height, each cell's width is sampled at its own position, the
representative noise value is sampled at the cell center, and cells are
shrunk by the padding (0.1mm floor). -/
def createAdaptiveGrid (noiseMap : ℕ → ℕ → ℚ) (mapH mapW : ℕ)
    (sizes : List ℚ) (padding : ℚ) (fuel : ℕ) : List GridCell :=
  gridRows noiseMap mapH mapW sizes padding fuel 0

/-- create_grid_points_for_cell: evenly spaced candidate points centered in
the cell, column-major as in the source (outer loop over i, inner over j). -/
def createGridPointsForCell (cellX cellY cellW cellH gridSpacing : ℚ) :
    List (ℚ × ℚ) :=
  let numX := max 1 (pyTrunc (cellW / gridSpacing)).toNat
  let numY := max 1 (pyTrunc (cellH / gridSpacing)).toNat
  let spacingX := cellW / (numX : ℚ)
  let spacingY := cellH / (numY : ℚ)
  (List.range numX).flatMap fun i =>
    (List.range numY).map fun j =>
      (cellX + spacingX * ((i : ℚ) + 1/2), cellY + spacingY * ((j : ℚ) + 1/2))

/-- Footprint entry of the hard-coded catalog lists in
place_components_with_perlin_noise: width, height, pin count, name. -/
structure Footprint where
  w : ℚ
  h : ℚ
  pins : ℕ
  name : String
  deriving Repr, DecidableEq

instance : Inhabited Footprint := ⟨⟨0, 0, 0, ""⟩⟩

def LARGE_FOOTPRINTS : List Footprint :=
  [⟨14, 14, 100, "qfp100"⟩, ⟨20, 20, 144, "qfp144"⟩, ⟨11, 11, 100, "bga100"⟩,
   ⟨13, 13, 144, "bga144"⟩, ⟨17, 17, 256, "bga256"⟩,
   ⟨10, 10, 2, "cap_radial_10mm"⟩]

def MEDIUM_FOOTPRINTS : List Footprint :=
  [⟨39/10, 49/10, 8, "soic8"⟩, ⟨39/10, 87/10, 14, "soic14"⟩,
   ⟨39/10, 99/10, 16, "soic16"⟩, ⟨22/5, 5, 14, "tssop14"⟩,
   ⟨22/5, 5, 16, "tssop16"⟩, ⟨22/5, 13/2, 20, "tssop20"⟩,
   ⟨7, 7, 32, "qfp32"⟩, ⟨10, 10, 44, "qfp44"⟩, ⟨7, 7, 48, "qfp48"⟩,
   ⟨10, 10, 64, "qfp64"⟩, ⟨5, 5, 2, "cap_radial_5mm"⟩,
   ⟨63/10, 63/10, 2, "cap_radial_6mm"⟩, ⟨8, 8, 2, "cap_radial_8mm"⟩]

def SMALL_MED_FOOTPRINTS : List Footprint :=
  [⟨2, 5/4, 2, "resistor_0805"⟩, ⟨16/5, 8/5, 2, "resistor_1206"⟩,
   ⟨2, 5/4, 2, "capacitor_0805"⟩, ⟨16/5, 8/5, 2, "capacitor_1206"⟩,
   ⟨2, 5/4, 2, "inductor_0805"⟩, ⟨27/10, 8/5, 2, "diode_sod123"⟩,
   ⟨2, 5/4, 2, "led_0805"⟩]

def SMALL_FOOTPRINTS : List Footprint :=
  [⟨1, 1/2, 2, "resistor_0402"⟩, ⟨8/5, 4/5, 2, "resistor_0603"⟩,
   ⟨1, 1/2, 2, "capacitor_0402"⟩, ⟨8/5, 4/5, 2, "capacitor_0603"⟩,
   ⟨8/5, 4/5, 2, "led_0603"⟩]

def CONNECTOR_FOOTPRINTS : List Footprint :=
  [⟨127/50, 127/25, 2, "connector_2pin"⟩, ⟨127/50, 254/25, 4, "connector_4pin"⟩,
   ⟨127/50, 381/25, 6, "connector_6pin"⟩, ⟨127/50, 508/25, 8, "connector_8pin"⟩,
   ⟨127/50, 127/5, 10, "connector_10pin"⟩, ⟨127/25, 127/10, 10, "connector_2x5"⟩,
   ⟨127/25, 508/25, 16, "connector_2x8"⟩, ⟨4, 7, 2, "jst_2pin"⟩,
   ⟨8, 7, 4, "jst_4pin"⟩, ⟨12, 7, 6, "jst_6pin"⟩, ⟨16, 7, 8, "jst_8pin"⟩]

def TESTPOINT_FOOTPRINTS : List Footprint :=
  [⟨1, 1, 1, "testpoint_1mm"⟩, ⟨3/2, 3/2, 1, "testpoint_1_5mm"⟩,
   ⟨2, 2, 1, "testpoint_2mm"⟩]

/-- is_in_keepout: the (unrotated) w x h box centered at (x, y) crosses
into the band within edge_margin of some board edge. -/
def isInKeepout (margin bW bH x y compW compH : ℚ) : Bool :=
  decide (x - compW / 2 < margin ∨ x + compW / 2 > bW - margin ∨
    y - compH / 2 < margin ∨ y + compH / 2 > bH - margin)

/-- Clearance tier applied by try_place_component, keyed on pin count. -/
def minSpacingFor (numPins : ℕ) : ℚ :=
  if numPins > 64 then 3 else if numPins > 16 then 2 else 3/2

/-- Scan of the candidate points of one cell inside try_place_component:
occupancy check at 0.1mm precision, keep-out check, clamp into the board,
tiered collision check against everything placed, then can_place.  Returns
the accepted component together with the occupancy key of its grid point. -/
def tryPoints (noiseMap : ℕ → ℕ → ℚ) (mapH mapW : ℕ) (bW bH margin : ℚ)
    (placed : List Comp) (occ : List (ℤ × ℤ)) (fp : Footprint) (rot : ℕ)
    (ctype : CompType) (nv : ℚ) : List (ℚ × ℚ) → Option (Comp × ℤ × ℤ)
  | [] => none
  | (px, py) :: rest =>
    let key := (pyTrunc (px * 10), pyTrunc (py * 10))
    if occ.contains key then
      tryPoints noiseMap mapH mapW bW bH margin placed occ fp rot ctype nv rest
    else if isInKeepout margin bW bH px py fp.w fp.h then
      tryPoints noiseMap mapH mapW bW bH margin placed occ fp rot ctype nv rest
    else
      let cx := max (fp.w / 2) (min (bW - fp.w / 2) px)
      let cy := max (fp.h / 2) (min (bH - fp.h / 2) py)
      let comp : Comp := ⟨fp.w, fp.h, fp.pins, cx, cy, nv * (4/5), rot, ctype, fp.name⟩
      let minSpacing := minSpacingFor fp.pins
      if placed.all (fun p => !(comp.overlapsWith p minSpacing)) &&
          comp.canPlace noiseMap mapH mapW [] then
        some (comp, key)
      else
        tryPoints noiseMap mapH mapW bW bH margin placed occ fp rot ctype nv rest

/-- Scan of the (shuffled, budget-limited) candidate cells inside
try_place_component; each visited cell shuffles its own grid points. -/
def tryCells (noiseMap : ℕ → ℕ → ℚ) (mapH mapW : ℕ) (bW bH margin : ℚ)
    (placed : List Comp) (occ : List (ℤ × ℤ)) (fp : Footprint) (rot : ℕ)
    (ctype : CompType) (gridSpacing : ℚ) (r : Rng) :
    List GridCell → RState → Option (Comp × ℤ × ℤ) × RState
  | [], s => (none, s)
  | cell :: rest, s =>
    let pts := createGridPointsForCell cell.x cell.y cell.w cell.h gridSpacing
    let (spts, s1) := shuffle r s pts
    match tryPoints noiseMap mapH mapW bW bH margin placed occ fp rot ctype cell.nv spts with
    | some res => (some res, s1)
    | none =>
      tryCells noiseMap mapH mapW bW bH margin placed occ fp rot ctype gridSpacing r rest s1

/-- try_place_component: random footprint, optional random rotation for
non-square footprints, preferred cells (falling back to all cells),
shuffle, and a 50-cell attempt budget. -/
def tryPlaceComponent (noiseMap : ℕ → ℕ → ℚ) (mapH mapW : ℕ) (bW bH margin : ℚ)
    (fps : List Footprint) (preferredCells allCells : List GridCell)
    (gridSpacing : ℚ) (ctype : CompType) (allowRotation : Bool)
    (placed : List Comp) (occ : List (ℤ × ℤ)) (r : Rng) (s : RState) :
    Option (Comp × ℤ × ℤ) × RState :=
  let (fi, s1) := drawInt r s fps.length
  let fp := fps.getD fi default
  let (rot, s2) :=
    if allowRotation = true ∧ fp.w ≠ fp.h then
      let (u, sa) := drawFloat r s1
      if u < 1/2 then
        let (ri, sb) := drawInt r sa 4
        ([0, 90, 180, 270].getD ri 0, sb)
      else (0, sa)
    else (0, s1)
  let cellsToTry := if preferredCells.isEmpty then allCells else preferredCells
  if cellsToTry.isEmpty then (none, s2)
  else
    let (shuffled, s3) := shuffle r s2 cellsToTry
    tryCells noiseMap mapH mapW bW bH margin placed occ fp rot ctype gridSpacing r
      (shuffled.take 50) s3

/-- place_decoupling_caps_near: up to count 0402 capacitors at the four
fixed radial offsets around a large component; the bounds test is on the
capacitor center only, and the collision test is can_place's default
1.0mm clearance against everything placed plus the companions so far. -/
def placeDecouplingCapsNear (noiseMap : ℕ → ℕ → ℚ) (mapH mapW : ℕ)
    (bW bH margin : ℚ) (placed : List Comp) (largeComp : Comp) (count : ℕ) :
    List Comp :=
  let d := max largeComp.w largeComp.h / 2 + 3
  let offsets : List (ℚ × ℚ) := [(d, 0), (-d, 0), (0, d), (0, -d)]
  (offsets.take count).foldl
    (fun caps off =>
      let capX := largeComp.x + off.1
      let capY := largeComp.y + off.2
      if capX < margin ∨ capX > bW - margin ∨ capY < margin ∨ capY > bH - margin then
        caps
      else
        let cap : Comp := ⟨1, 1/2, 2, capX, capY, 0, 0, .cap, "capacitor_0402"⟩
        if cap.canPlace noiseMap mapH mapW (placed ++ caps) then caps ++ [cap]
        else caps)
    []

/-- Position drawn for a connector attempt: the chosen edge's band midline
coordinate paired with a uniform offset along that edge. -/
def connectorPos (bW bH margin dw dh : ℚ) (ei : ℕ) (r : Rng) (s : RState) :
    ℚ × ℚ × RState :=
  if ei = 0 then
    let (y, sa) := drawUniform r s (margin + dh / 2) (bH - margin - dh / 2)
    (margin / 2, y, sa)
  else if ei = 1 then
    let (y, sa) := drawUniform r s (margin + dh / 2) (bH - margin - dh / 2)
    (bW - margin / 2, y, sa)
  else if ei = 2 then
    let (x, sa) := drawUniform r s (margin + dw / 2) (bW - margin - dw / 2)
    (x, margin / 2, sa)
  else
    let (x, sa) := drawUniform r s (margin + dw / 2) (bW - margin - dw / 2)
    (x, bH - margin / 2, sa)

/-- try_place_connector: random footprint, random rotation, random edge,
position centered on the midline of the edge band at a uniform offset
along the edge; fixed 3.0mm clearance; bounded attempt budget. -/
def tryPlaceConnector (bW bH margin : ℚ) (fps : List Footprint)
    (placed : List Comp) (r : Rng) : ℕ → RState → Option Comp × RState
  | 0, s => (none, s)
  | attempts + 1, s =>
    let (fi, s1) := drawInt r s fps.length
    let fp := fps.getD fi default
    let (ri, s2) := drawInt r s1 4
    let rot := [0, 90, 180, 270].getD ri 0
    let dw := if rot = 90 ∨ rot = 270 then fp.h else fp.w
    let dh := if rot = 90 ∨ rot = 270 then fp.w else fp.h
    let (ei, s3) := drawInt r s2 4
    let res := connectorPos bW bH margin dw dh ei r s3
    let comp : Comp := ⟨fp.w, fp.h, fp.pins, res.1, res.2.1, 0, rot, .connector, fp.name⟩
    if placed.all (fun p => !(comp.overlapsWith p 3)) then (some comp, res.2.2)
    else tryPlaceConnector bW bH margin fps placed r attempts res.2.2

/-- Proposed testpoint position: offset 5-15mm at a random angle from a
random (preferably non-connector) placed component, or a uniform interior
point when nothing is placed yet.  cosT/sinT model cos/sin of the angle
2*pi*u for the unit draw u behind np.random.uniform(0, 2*pi). -/
def testpointProposal (bW bH margin : ℚ) (fp : Footprint) (placed : List Comp)
    (cosT sinT : ℚ → ℚ) (r : Rng) (s : RState) : ℚ × ℚ × RState :=
  if placed.isEmpty then
    let (x, sa) := drawUniform r s (margin + fp.w / 2) (bW - margin - fp.w / 2)
    let (y, sb) := drawUniform r sa (margin + fp.h / 2) (bH - margin - fp.h / 2)
    (x, y, sb)
  else
    let nonConn := placed.filter (fun c => c.compType ≠ CompType.connector)
    let (base, sa) :=
      if nonConn.isEmpty then
        let (bi, sx) := drawInt r s placed.length
        (placed.getD bi default, sx)
      else
        let (bi, sx) := drawInt r s nonConn.length
        (nonConn.getD bi default, sx)
    let (offDist, sb) := drawUniform r sa 5 15
    let (u, sc) := drawFloat r sb
    (base.x + offDist * cosT u, base.y + offDist * sinT u, sc)

/-- try_place_testpoint: random testpoint size, a proposed position near
an existing component, clamped into the interior zone and re-checked
against it; fixed 2.0mm clearance; bounded attempt budget. -/
def tryPlaceTestpoint (bW bH margin : ℚ) (fps : List Footprint)
    (placed : List Comp) (cosT sinT : ℚ → ℚ) (r : Rng) :
    ℕ → RState → Option Comp × RState
  | 0, s => (none, s)
  | attempts + 1, s =>
    let (fi, s1) := drawInt r s fps.length
    let fp := fps.getD fi default
    let pos := testpointProposal bW bH margin fp placed cosT sinT r s1
    let s2 := pos.2.2
    let tx := max (margin + fp.w / 2) (min (bW - margin - fp.w / 2) pos.1)
    let ty := max (margin + fp.h / 2) (min (bH - margin - fp.h / 2) pos.2.1)
    if tx - fp.w / 2 < margin ∨ tx + fp.w / 2 > bW - margin ∨
        ty - fp.h / 2 < margin ∨ ty + fp.h / 2 > bH - margin then
      tryPlaceTestpoint bW bH margin fps placed cosT sinT r attempts s2
    else
      let comp : Comp := ⟨fp.w, fp.h, fp.pins, tx, ty, 0, 0, .testpoint, fp.name⟩
      if placed.all (fun p => !(comp.overlapsWith p 2)) then (some comp, s2)
      else tryPlaceTestpoint bW bH margin fps placed cosT sinT r attempts s2

/-- Per-category parameters of place_components_with_perlin_noise that the
placement stage reads (the noise parameters feed only the field, which the
core receives directly). -/
structure PackParams where
  gridSizes : List ℚ
  largeCount : ℕ
  mediumCount : ℕ
  smallMedCount : ℕ
  smallCount : ℕ
  connectorCount : ℕ
  testpointCount : ℕ
  largeSpacing : ℚ
  mediumSpacing : ℚ
  smallMedSpacing : ℚ
  smallSpacing : ℚ
  deriving Repr, DecidableEq

/-- Placement loop for one ordinary grid category: count attempts, each a
try_place_component whose success appends the component and claims the
grid point. -/
def packLoop (noiseMap : ℕ → ℕ → ℚ) (mapH mapW : ℕ) (bW bH margin : ℚ)
    (fps : List Footprint) (preferredCells allCells : List GridCell)
    (gridSpacing : ℚ) (ctype : CompType) (allowRotation : Bool) (r : Rng) :
    ℕ → List Comp → List (ℤ × ℤ) → RState →
    List Comp × List (ℤ × ℤ) × RState
  | 0, placed, occ, s => (placed, occ, s)
  | n + 1, placed, occ, s =>
    match tryPlaceComponent noiseMap mapH mapW bW bH margin fps preferredCells
        allCells gridSpacing ctype allowRotation placed occ r s with
    | (some (c, key), s1) =>
      packLoop noiseMap mapH mapW bW bH margin fps preferredCells allCells
        gridSpacing ctype allowRotation r n (placed ++ [c]) (key :: occ) s1
    | (none, s1) =>
      packLoop noiseMap mapH mapW bW bH margin fps preferredCells allCells
        gridSpacing ctype allowRotation r n placed occ s1

/-- Placement loop for the large category: a successful placement is
followed by 2-4 decoupling companions. -/
def packLoopLarge (noiseMap : ℕ → ℕ → ℚ) (mapH mapW : ℕ) (bW bH margin : ℚ)
    (preferredCells allCells : List GridCell) (gridSpacing : ℚ) (r : Rng) :
    ℕ → List Comp → List (ℤ × ℤ) → RState →
    List Comp × List (ℤ × ℤ) × RState
  | 0, placed, occ, s => (placed, occ, s)
  | n + 1, placed, occ, s =>
    match tryPlaceComponent noiseMap mapH mapW bW bH margin LARGE_FOOTPRINTS
        preferredCells allCells gridSpacing .large false placed occ r s with
    | (some (c, key), s1) =>
      let placed1 := placed ++ [c]
      let (cnt, s2) := drawInt r s1 3
      let caps := placeDecouplingCapsNear noiseMap mapH mapW bW bH margin placed1 c (2 + cnt)
      packLoopLarge noiseMap mapH mapW bW bH margin preferredCells allCells
        gridSpacing r n (placed1 ++ caps) (key :: occ) s2
    | (none, s1) =>
      packLoopLarge noiseMap mapH mapW bW bH margin preferredCells allCells
        gridSpacing r n placed occ s1

/-- Connector placement loop. -/
def connLoop (bW bH margin : ℚ) (r : Rng) :
    ℕ → List Comp → RState → List Comp × RState
  | 0, placed, s => (placed, s)
  | n + 1, placed, s =>
    match tryPlaceConnector bW bH margin CONNECTOR_FOOTPRINTS placed r 100 s with
    | (some c, s1) => connLoop bW bH margin r n (placed ++ [c]) s1
    | (none, s1) => connLoop bW bH margin r n placed s1

/-- Testpoint placement loop. -/
def tpLoop (bW bH margin : ℚ) (cosT sinT : ℚ → ℚ) (r : Rng) :
    ℕ → List Comp → RState → List Comp × RState
  | 0, placed, s => (placed, s)
  | n + 1, placed, s =>
    match tryPlaceTestpoint bW bH margin TESTPOINT_FOOTPRINTS placed cosT sinT r 50 s with
    | (some c, s1) => tpLoop bW bH margin cosT sinT r n (placed ++ [c]) s1
    | (none, s1) => tpLoop bW bH margin cosT sinT r n placed s1

/-- place_components_with_perlin_noise after the noise field has been
produced: adaptive grid, cell categorization by width band, the five
grid-category loops, connectors, then testpoints.  noiseMap is the
normalized field (shape int(boardH) x int(boardW)); r and s0 model the
np.random stream as re-seeded at the start of placement; the returned
state is the stream position afterwards (routing continues from it). -/
def placeComponentsCore (noiseMap : ℕ → ℕ → ℚ) (bW bH : ℚ) (cosT sinT : ℚ → ℚ)
    (p : PackParams) (r : Rng) (s0 : RState) (fuel : ℕ) :
    List Comp × RState :=
  let mapH := qIdx bH
  let mapW := qIdx bW
  let grid := createAdaptiveGrid noiseMap mapH mapW p.gridSizes (3/10) fuel
  let g1 := p.gridSizes.getD 0 0
  let g2 := p.gridSizes.getD 1 0
  let g3 := p.gridSizes.getD 2 0
  let g4 := p.gridSizes.getD 3 0
  let size1 := grid.filter (fun c => c.w ≥ g1 - 1)
  let size2 := grid.filter (fun c => g2 - 1 ≤ c.w ∧ c.w < g1 - 1)
  let size3 := grid.filter (fun c => g3 - 1/2 ≤ c.w ∧ c.w < g2 - 1)
  let size4 := grid.filter (fun c => g4 - 1/2 ≤ c.w ∧ c.w < g3 - 1/2)
  let size5 := grid.filter (fun c => c.w < g4 - 1/2)
  let margin := bW * (1/10)
  let st1 := packLoopLarge noiseMap mapH mapW bW bH margin size1 grid
    p.largeSpacing r p.largeCount [] [] s0
  let smallIn2 := (pyTrunc ((p.smallCount : ℚ) * (2/5))).toNat
  let st2 := packLoop noiseMap mapH mapW bW bH margin SMALL_FOOTPRINTS size2 grid
    p.smallSpacing .small true r smallIn2 st1.1 st1.2.1 st1.2.2
  let st3 := packLoop noiseMap mapH mapW bW bH margin MEDIUM_FOOTPRINTS size3 grid
    p.mediumSpacing .medium true r p.mediumCount st2.1 st2.2.1 st2.2.2
  let st4 := packLoop noiseMap mapH mapW bW bH margin SMALL_MED_FOOTPRINTS size4 grid
    p.smallMedSpacing .smallMed true r p.smallMedCount st3.1 st3.2.1 st3.2.2
  let smallIn5 := (pyTrunc ((p.smallCount : ℚ) * (3/5))).toNat
  let st5 := packLoop noiseMap mapH mapW bW bH margin SMALL_FOOTPRINTS size5 grid
    p.smallSpacing .small true r smallIn5 st4.1 st4.2.1 st4.2.2
  let st6 := connLoop bW bH margin r p.connectorCount st5.1 st5.2.2
  tpLoop bW bH margin cosT sinT r p.testpointCount st6.1 st6.2

/-- Production ComponentPlacement record handed from the placer to the
routing stage. -/
structure CompPlacement where
  x : ℚ
  y : ℚ
  rotation : ℚ
  sizeCategory : String
  componentType : String
  deriving Repr, DecidableEq

instance : Inhabited CompPlacement := ⟨⟨0, 0, 0, "", ""⟩⟩

/-- Net of routing.py: name, type tag, and the ordered list of
(component_index, pad_index) pairs. -/
structure NetT where
  name : String
  netType : String
  pads : List (ℕ × ℕ)
  deriving Repr, DecidableEq

instance : Inhabited NetT := ⟨⟨"", "", []⟩⟩

/-- Routing parameter dictionary as the source reads it.  The
fanoutProbability entry may be present in a configuration, but
generate_random_netlists never reads it (its inclusion probability is the
hard-coded 0.4). -/
structure RouteParams where
  maxSignalNets : ℕ
  fanoutProbability : ℚ
  powerTrackWidth : ℚ
  groundTrackWidth : ℚ
  deriving Repr, DecidableEq

/-- Power/ground fan-out loop of generate_random_netlists: one unit draw
per component index; inclusion when the draw is below the hard-coded 0.4,
pad 0 on the power net and pad 1 on the ground net. -/
def pgLoop (r : Rng) : List ℕ → RState → List (ℕ × ℕ) × List (ℕ × ℕ) × RState
  | [], s => ([], [], s)
  | i :: rest, s =>
    let (u, s1) := drawFloat r s
    let res := pgLoop r rest s1
    if u < 2/5 then ((i, 0) :: res.1, (i, 1) :: res.2.1, res.2.2)
    else res

/-- Candidate list for one signal-net attempt: for every other component,
the first pad index in [2, 8) not yet used, keyed by the distance to the
source component.  The source stores sqrt of the squared distance and only
sorts by it; since sqrt is strictly monotone the squared distance is kept
instead, giving the identical ordering. -/
def buildCandidates (placements : List CompPlacement) (srcIdx : ℕ)
    (used : List (ℕ × ℕ)) : List (ℚ × ℕ × ℕ) :=
  (List.range placements.length).filterMap fun ti =>
    if ti = srcIdx then none
    else
      let sp := placements.getD srcIdx default
      let tp := placements.getD ti default
      let dsq := (sp.x - tp.x) ^ 2 + (sp.y - tp.y) ^ 2
      match (List.range' 2 6).find? (fun pin => !(used.contains (ti, pin))) with
      | some pin => some (dsq, ti, pin)
      | none => none

/-- Stable insertion by ascending key (Python's sort is stable; each later
element is inserted after existing equal keys). -/
def insertByKey (x : ℚ × ℕ × ℕ) : List (ℚ × ℕ × ℕ) → List (ℚ × ℕ × ℕ)
  | [] => [x]
  | y :: ys => if y.1 ≤ x.1 then y :: insertByKey x ys else x :: y :: ys

def sortByKey (l : List (ℚ × ℕ × ℕ)) : List (ℚ × ℕ × ℕ) :=
  l.foldl (fun acc x => insertByKey x acc) []

/-- Signal-net loop of generate_random_netlists.  Each attempt draws a
source component and a pin in [2, 8); an already-used source pin skips the
attempt (without bumping the net counter); otherwise the source pin is
burned, the net counter bumps, and the net is kept only if some candidate
supplies a second pad, chosen among the five nearest. -/
def signalLoop (placements : List CompPlacement) (r : Rng) :
    ℕ → ℕ → List NetT → List (ℕ × ℕ) → RState → List NetT × RState
  | 0, _, nets, _, s => (nets, s)
  | n + 1, counter, nets, used, s =>
    let (si, s1) := drawInt r s placements.length
    let (spRaw, s2) := drawInt r s1 6
    let spin := 2 + spRaw
    if used.contains (si, spin) then
      signalLoop placements r n counter nets used s2
    else
      let used1 := used ++ [(si, spin)]
      let counter1 := counter + 1
      let cands := buildCandidates placements si used1
      if cands.isEmpty then
        signalLoop placements r n counter1 nets used1 s2
      else
        let sorted := sortByKey cands
        let (ci, s3) := drawInt r s2 5
        let choiceIdx := min ci (cands.length - 1)
        let chosen := sorted.getD choiceIdx default
        let net : NetT :=
          ⟨"NET_" ++ toString counter, "signal", [(si, spin), chosen.2]⟩
        signalLoop placements r n counter1 (nets ++ [net]) (used1 ++ [chosen.2]) s3

/-- generate_random_netlists: the unconditionally returned power and ground
nets followed by the signal nets. -/
def generateRandomNetlists (placements : List CompPlacement)
    (params : RouteParams) (r : Rng) (s : RState) : List NetT × RState :=
  let pg := pgLoop r (List.range placements.length) s
  let powerNet : NetT := ⟨"VCC", "power", pg.1⟩
  let groundNet : NetT := ⟨"GND", "ground", pg.2.1⟩
  let sl := signalLoop placements r params.maxSignalNets 1 [] [] pg.2.2
  (powerNet :: groundNet :: sl.1, sl.2)

/-- get_component_pad_position: the source fixes w = h = 3.0 regardless of
the actual footprint, swaps them on 90/270 rotation, maps pads 0-3 to the
side midpoints of that fixed box and pads from 4 on to a circle of radius
max(w, h)/2 at angle (pad_index/8)*2*pi.  cosT/sinT model cos/sin of the
angle 2*pi*t for the turn fraction t they receive. -/
def getComponentPadPosition (cosT sinT : ℚ → ℚ) (p : CompPlacement)
    (padIndex : ℕ) : ℚ × ℚ :=
  let w : ℚ := 3
  let h : ℚ := 3
  let wh := if p.rotation = 90 ∨ p.rotation = 270 then (h, w) else (w, h)
  if padIndex = 0 then (p.x - wh.1 / 2, p.y)
  else if padIndex = 1 then (p.x + wh.1 / 2, p.y)
  else if padIndex = 2 then (p.x, p.y - wh.2 / 2)
  else if padIndex = 3 then (p.x, p.y + wh.2 / 2)
  else
    let radius := max wh.1 wh.2 / 2
    (p.x + radius * cosT ((padIndex : ℚ) / 8),
     p.y + radius * sinT ((padIndex : ℚ) / 8))

/-- Pad-position rule written from the spec's words, for comparison with
the code: pins 0-3 are the side midpoints of the placement's rotated w x h
bounding box, pins from 4 on sit on a circle whose radius is half the
larger footprint dimension, at angle (pad_index/8)*2*pi. -/
def specPadPosition (cosT sinT : ℚ → ℚ) (w h : ℚ) (p : CompPlacement)
    (padIndex : ℕ) : ℚ × ℚ :=
  let wh := if p.rotation = 90 ∨ p.rotation = 270 then (h, w) else (w, h)
  if padIndex = 0 then (p.x - wh.1 / 2, p.y)
  else if padIndex = 1 then (p.x + wh.1 / 2, p.y)
  else if padIndex = 2 then (p.x, p.y - wh.2 / 2)
  else if padIndex = 3 then (p.x, p.y + wh.2 / 2)
  else
    let radius := max wh.1 wh.2 / 2
    (p.x + radius * cosT ((padIndex : ℚ) / 8),
     p.y + radius * sinT ((padIndex : ℚ) / 8))

/-- Track segment produced by the router (create_pcb_track's data). -/
structure TrackSegment where
  startX : ℚ
  startY : ℚ
  endX : ℚ
  endY : ℚ
  width : ℚ
  netName : String
  deriving Repr, DecidableEq

instance : Inhabited TrackSegment := ⟨⟨0, 0, 0, 0, 0, ""⟩⟩

def distSq (a b : ℚ × ℚ) : ℚ :=
  (a.1 - b.1) ^ 2 + (a.2 - b.2) ^ 2

/-- route_dogleg without an explicit orientation: one draw decides
horizontal-first, the corner is (end_x, start_y) or (start_x, end_y). -/
def routeDogleg (r : Rng) (s : RState) (st en : ℚ × ℚ) :
    List (ℚ × ℚ) × RState :=
  let (u, s1) := drawFloat r s
  let mid := if u < 1/2 then (en.1, st.2) else (st.1, en.2)
  ([st, mid, en], s1)

/-- Waypoint loop of route_manhattan: iterations i = 0 .. segments-2, one
jitter draw each, alternating horizontal/vertical, clamped between the
endpoint coordinates. -/
def manhattanGo (r : Rng) (st en : ℚ × ℚ) (segments : ℕ) :
    ℕ → ℕ → ℚ → ℚ → Bool → RState → List (ℚ × ℚ) × RState
  | 0, _, _, _, _, s => ([], s)
  | fuel + 1, i, curX, curY, horizontal, s =>
    if i + 1 ≥ segments then ([], s)
    else
      let progress := ((i : ℚ) + 1) / (segments : ℚ)
      let (u, s1) := drawFloat r s
      if horizontal then
        let tx := st.1 + (en.1 - st.1) * progress
        let variation := (en.1 - st.1) * (2/5) * (u - 1/2)
        let tx := max (min st.1 en.1) (min (max st.1 en.1) (tx + variation))
        let res := manhattanGo r st en segments fuel (i + 1) tx curY (!horizontal) s1
        ((tx, curY) :: res.1, res.2)
      else
        let ty := st.2 + (en.2 - st.2) * progress
        let variation := (en.2 - st.2) * (2/5) * (u - 1/2)
        let ty := max (min st.2 en.2) (min (max st.2 en.2) (ty + variation))
        let res := manhattanGo r st en segments fuel (i + 1) curX ty (!horizontal) s1
        ((curX, ty) :: res.1, res.2)

/-- route_manhattan with an explicit segment count (route_net always passes
one): one draw for the initial direction, then the waypoint loop. -/
def routeManhattan (r : Rng) (s : RState) (st en : ℚ × ℚ) (segments : ℕ) :
    List (ℚ × ℚ) × RState :=
  let (u, s1) := drawFloat r s
  let go := manhattanGo r st en segments segments 0 st.1 st.2 (decide (u < 1/2)) s1
  (st :: go.1 ++ [en], go.2)

/-- Path-style selection of route_net for one chosen pad pair.  The source
compares sqrt of the squared distance with 5.0 and 20.0; the equivalent
comparisons of the squared distance with 25 and 400 are used. -/
def routePairWaypoints (r : Rng) (s : RState) (st en : ℚ × ℚ) :
    List (ℚ × ℚ) × RState :=
  let dsq := distSq st en
  let (u, s1) := drawFloat r s
  if dsq < 25 then
    if u < 1/2 then ([st, en], s1) else routeDogleg r s1 st en
  else if dsq < 400 then
    if u < 3/10 then ([st, en], s1)
    else if u < 3/5 then routeDogleg r s1 st en
    else
      let (k, s2) := drawInt r s1 2
      routeManhattan r s2 st en (2 + k)
  else
    if u < 2/5 then routeDogleg r s1 st en
    else
      let (k, s2) := drawInt r s1 3
      routeManhattan r s2 st en (3 + k)

/-- One create_pcb_track call per consecutive waypoint pair. -/
def waypointSegments (wps : List (ℚ × ℚ)) (width : ℚ) (netName : String) :
    List TrackSegment :=
  (wps.zip wps.tail).map fun pq => ⟨pq.1.1, pq.1.2, pq.2.1, pq.2.2, width, netName⟩

def padPos (cosT sinT : ℚ → ℚ) (placements : List CompPlacement)
    (pad : ℕ × ℕ) : ℚ × ℚ :=
  getComponentPadPosition cosT sinT (placements.getD pad.1 default) pad.2

/-- Minimum-distance (routed, unrouted) pad pair of route_net: outer loop
over routed pads, inner over unrouted, strict improvement keeps the first
minimum. -/
def bestPair (cosT sinT : ℚ → ℚ) (placements : List CompPlacement)
    (routed unrouted : List (ℕ × ℕ)) : Option ((ℕ × ℕ) × (ℕ × ℕ)) :=
  let pairs := routed.flatMap fun rp => unrouted.map fun up => (rp, up)
  (pairs.foldl
    (fun best pr =>
      let d := distSq (padPos cosT sinT placements pr.1)
        (padPos cosT sinT placements pr.2)
      match best with
      | none => some (pr, d)
      | some (bp, bd) => if d < bd then some (pr, d) else some (bp, bd))
    none).map Prod.fst

/-- Greedy connection loop of route_net. -/
def routeNetGo (cosT sinT : ℚ → ℚ) (placements : List CompPlacement)
    (r : Rng) (width : ℚ) (netName : String) :
    ℕ → List (ℕ × ℕ) → List (ℕ × ℕ) → RState → List TrackSegment × RState
  | 0, _, _, s => ([], s)
  | fuel + 1, routed, unrouted, s =>
    if unrouted.isEmpty then ([], s)
    else
      match bestPair cosT sinT placements routed unrouted with
      | none => ([], s)
      | some (bp, bu) =>
        let startPos := padPos cosT sinT placements bp
        let endPos := padPos cosT sinT placements bu
        let (wps, s1) := routePairWaypoints r s startPos endPos
        let segs := waypointSegments wps width netName
        let rest := routeNetGo cosT sinT placements r width netName fuel
          (routed ++ [bu]) (unrouted.erase bu) s1
        (segs ++ rest.1, rest.2)

/-- route_net: nets with fewer than two pads are skipped; track width is
fixed for power/ground and drawn from the weighted choices
[0.2, 0.25, 0.3] with weights [0.5, 0.3, 0.2] for signal nets (modelled by
cumulative thresholds on one unit draw); then the greedy loop. -/
def routeNet (cosT sinT : ℚ → ℚ) (r : Rng) (net : NetT)
    (placements : List CompPlacement) (params : RouteParams) (s : RState) :
    List TrackSegment × RState :=
  if net.pads.length < 2 then ([], s)
  else
    let wres :=
      if net.netType = "power" then (params.powerTrackWidth, s)
      else if net.netType = "ground" then (params.groundTrackWidth, s)
      else
        let (u, sa) := drawFloat r s
        ((if u < 1/2 then (1/5 : ℚ) else if u < 4/5 then 1/4 else 3/10), sa)
    routeNetGo cosT sinT placements r wres.1 net.name net.pads.length
      (net.pads.take 1) (net.pads.drop 1) wres.2

/-- add_routing_to_board restricted to its in-memory output: synthesize the
nets and route each in order (the ground pour is a zone, not a track). -/
def addRouting (cosT sinT : ℚ → ℚ) (placements : List CompPlacement)
    (params : RouteParams) (r : Rng) (s : RState) :
    List TrackSegment × RState :=
  let (nets, s1) := generateRandomNetlists placements params r s
  nets.foldl
    (fun acc net =>
      let res := routeNet cosT sinT r net placements params acc.2
      (acc.1 ++ res.1, res.2))
    (([] : List TrackSegment), s1)

/-- generate_perlin_noise.  pn models the external pnoise2 gradient-noise
primitive, applied at (x/scale, y/scale) with the octave parameters, the
integer repeat periods and the seed-derived base; sqrtF models float sqrt
for the vignette distances.  Raw values are min-max normalized; when the
raw field is constant the source divides by zero, which in float
arithmetic yields a NaN-filled array: that undefined outcome is modelled
as none.  A positive vignette strength multiplies in the radial factor and
re-normalizes (again none if constant). -/
def generatePerlinNoise (sqrtF : ℚ → ℚ)
    (pn : ℚ → ℚ → ℕ → ℚ → ℚ → ℤ → ℤ → ℤ → ℚ)
    (width height scale : ℚ) (octaves : ℕ) (persistence lacunarity : ℚ)
    (seed : ℤ) (vignetteStrength : ℚ) : Option (ℕ → ℕ → ℚ) :=
  let h := qIdx height
  let w := qIdx width
  let raw : ℕ → ℕ → ℚ := fun y x =>
    pn ((x : ℚ) / scale) ((y : ℚ) / scale) octaves persistence lacunarity
      (pyTrunc width) (pyTrunc height) seed
  let values := (List.range h).flatMap fun y => (List.range w).map fun x => raw y x
  match values.min?, values.max? with
  | some mn, some mx =>
    if mx = mn then none
    else
      let normed : ℕ → ℕ → ℚ := fun y x => (raw y x - mn) / (mx - mn)
      if vignetteStrength > 0 then
        let cx := width / 2
        let cy := height / 2
        let maxDist := sqrtF (cx ^ 2 + cy ^ 2)
        let vigged : ℕ → ℕ → ℚ := fun y x =>
          let dist := sqrtF (((x : ℚ) - cx) ^ 2 + ((y : ℚ) - cy) ^ 2)
          let vignette := 1 - vignetteStrength + vignetteStrength * (1 - dist / maxDist)
          normed y x * vignette
        let vvalues :=
          (List.range h).flatMap fun y => (List.range w).map fun x => vigged y x
        match vvalues.min?, vvalues.max? with
        | some mn2, some mx2 =>
          if mx2 = mn2 then none
          else some fun y x => (vigged y x - mn2) / (mx2 - mn2)
        | _, _ => none
      else some normed
  | _, _ => none

/-- Full engine configuration for one sample. -/
structure EngineConfig where
  boardW : ℚ
  boardH : ℚ
  scale : ℚ
  octaves : ℕ
  persistence : ℚ
  lacunarity : ℚ
  vignetteStrength : ℚ
  pack : PackParams
  route : RouteParams

/-- size_category mapping of PerlinPlacer.generate_placements. -/
def sizeCategoryOf : CompType → String
  | .large => "large"
  | .medium => "medium"
  | _ => "small"

def toCompPlacement (c : Comp) : CompPlacement :=
  ⟨c.x, c.y, (c.rotation : ℚ), sizeCategoryOf c.compType, c.footprint⟩

/-- One engine invocation: noise field from the seed, placement from the
seed-reset oracle stream (np.random.seed(seed) before packing), then net
synthesis and routing continuing on the same stream.  draws maps a seed to
the oracle stream of the re-seeded global numpy PRNG; pn, sqrtF, cosT and
sinT are the deterministic external numeric primitives.  none models the
NaN noise field of a degenerate (constant) raw field. -/
def engineRun (draws : ℤ → Rng)
    (pn : ℚ → ℚ → ℕ → ℚ → ℚ → ℤ → ℤ → ℤ → ℚ) (sqrtF cosT sinT : ℚ → ℚ)
    (seed : ℤ) (cfg : EngineConfig) (fuel : ℕ) :
    Option (List CompPlacement × List TrackSegment) :=
  match generatePerlinNoise sqrtF pn cfg.boardW cfg.boardH cfg.scale cfg.octaves
      cfg.persistence cfg.lacunarity seed cfg.vignetteStrength with
  | none => none
  | some nm =>
    let r := draws seed
    let pc := placeComponentsCore nm cfg.boardW cfg.boardH cosT sinT cfg.pack r ⟨0, 0⟩ fuel
    let placements := pc.1.map toCompPlacement
    let tr := addRouting cosT sinT placements cfg.route r pc.2
    some (placements, tr.1)

/-! Claim-level predicates and concrete instances. -/

/-- Clearance the spec's claim assigns to a placement: the pin-count tier
for ordinary components (decoupling companions are ordinary 2-pin
capacitors, hence the 1.5mm tier), 3.0mm for connectors, 2.0mm for
testpoints. -/
def claimClearance (c : Comp) : ℚ :=
  match c.compType with
  | .connector => 3
  | .testpoint => 2
  | _ => minSpacingFor c.numPins

/-- Clearance the code actually enforces when a placement is accepted:
the pin-count tier for grid components, but only can_place's default
1.0mm for decoupling companions, 3.0mm for connectors, 2.0mm for
testpoints. -/
def appliedClearance (c : Comp) : ℚ :=
  match c.compType with
  | .cap => 1
  | .connector => 3
  | .testpoint => 2
  | _ => minSpacingFor c.numPins

/-- Unrotated-dimension bounding box inside the closed interior rectangle
left by the margin band. -/
def interiorBox (margin bW bH : ℚ) (c : Comp) : Prop :=
  margin ≤ c.x - c.w / 2 ∧ c.x + c.w / 2 ≤ bW - margin ∧
    margin ≤ c.y - c.h / 2 ∧ c.y + c.h / 2 ≤ bH - margin

/-- Zone discipline the code actually guarantees for an emitted placement:
grid components keep their unrotated box inside the interior rectangle;
decoupling companions only have their center checked against it;
testpoints keep their box inside it; connectors sit centered on the
midline of the margin band of their chosen edge (margin = bW/10 on all
four sides). -/
def zoneOK (margin bW bH : ℚ) (c : Comp) : Prop :=
  match c.compType with
  | .connector =>
    c.x = margin / 2 ∨ c.x = bW - margin / 2 ∨
      c.y = margin / 2 ∨ c.y = bH - margin / 2
  | .testpoint => interiorBox margin bW bH c
  | .cap =>
    margin ≤ c.x ∧ c.x ≤ bW - margin ∧ margin ≤ c.y ∧ c.y ≤ bH - margin
  | _ => interiorBox margin bW bH c

/-- Edge-margin band of the claim: within 10% of the board width of the
left/right edge or 10% of the board height of the top/bottom edge. -/
def inClaimBand (bW bH : ℚ) (pt : ℚ × ℚ) : Prop :=
  pt.1 ≤ bW / 10 ∨ pt.1 ≥ bW - bW / 10 ∨ pt.2 ≤ bH / 10 ∨ pt.2 ≥ bH - bH / 10

/-- Point inside a placement's (rotation-aware) bounding box. -/
def inBoundingBox (c : Comp) (pt : ℚ × ℚ) : Prop :=
  let b := c.getBounds
  b.1 ≤ pt.1 ∧ pt.1 ≤ b.2.2.1 ∧ b.2.1 ≤ pt.2 ∧ pt.2 ≤ b.2.2.2

/-- A horizontal track segment of nonzero length. -/
def segIsHorizontal (t : TrackSegment) : Prop :=
  t.startY = t.endY ∧ t.startX ≠ t.endX

/-- A vertical track segment of nonzero length. -/
def segIsVertical (t : TrackSegment) : Prop :=
  t.startX = t.endX ∧ t.startY ≠ t.endY

/-- The path shape asserted by the claim for the sub-5mm band: one
straight segment, or two segments meeting in exactly one 90-degree bend. -/
def claimShortPath (segs : List TrackSegment) : Prop :=
  segs.length = 1 ∨
    (segs.length = 2 ∧
      ((segIsHorizontal (segs.getD 0 default) ∧ segIsVertical (segs.getD 1 default)) ∨
        (segIsVertical (segs.getD 0 default) ∧ segIsHorizontal (segs.getD 1 default))))

/-- Two nets without a common (component, pad) reference. -/
def padsDisjoint (a b : NetT) : Prop :=
  ∀ p ∈ a.pads, p ∉ b.pads

instance (c : Comp) (pt : ℚ × ℚ) : Decidable (inBoundingBox c pt) := by
  unfold inBoundingBox
  infer_instance

instance (bW bH : ℚ) (pt : ℚ × ℚ) : Decidable (inClaimBand bW bH pt) := by
  unfold inClaimBand
  infer_instance

instance (t : TrackSegment) : Decidable (segIsHorizontal t) := by
  unfold segIsHorizontal
  infer_instance

instance (t : TrackSegment) : Decidable (segIsVertical t) := by
  unfold segIsVertical
  infer_instance

instance (segs : List TrackSegment) : Decidable (claimShortPath segs) := by
  unfold claimShortPath
  infer_instance

/-- Power pads the code produces from the oracle started at stream
position zero: component i joins exactly when its unit draw (float i) is
below the hard-coded 0.4, with pad index 0. -/
def powerPadsSpec (n : ℕ) (r : Rng) : List (ℕ × ℕ) :=
  ((List.range n).filter fun i => decide (r.floats i < 2/5)).map fun i => (i, 0)

/-- Ground pads: same inclusion draws, pad index 1. -/
def groundPadsSpec (n : ℕ) (r : Rng) : List (ℕ × ℕ) :=
  ((List.range n).filter fun i => decide (r.floats i < 2/5)).map fun i => (i, 1)

/-- Catalog lookup by footprint name over the source's footprint tables. -/
def catalogFootprint (name : String) : Footprint :=
  ((LARGE_FOOTPRINTS ++ MEDIUM_FOOTPRINTS ++ SMALL_MED_FOOTPRINTS ++
      SMALL_FOOTPRINTS ++ CONNECTOR_FOOTPRINTS ++ TESTPOINT_FOOTPRINTS).find?
    fun f => f.name = name).getD default

/-! Concrete instances used by counterexamples and witnesses. -/

/-- A normalized noise field: 1 everywhere except a single 0 cell in the
far corner (so its minimum is 0 and its maximum 1, as min-max
normalization produces). -/
def fieldA : ℕ → ℕ → ℚ := fun row col => if row = 79 ∧ col = 79 then 0 else 1

/-- Oracle for the two-large-components run: footprint index 0 (qfp100),
identity shuffles of the twelve size-1 cells, and 4 decoupling companions
per large component. -/
def packRngA : Rng :=
  ⟨fun _ => 0,
   fun k => [0, 11, 10, 9, 8, 7, 6, 5, 4, 3, 2, 1, 2,
             0, 11, 10, 9, 8, 7, 6, 5, 4, 3, 2, 1, 2].getD k 0⟩

/-- Two large components, nothing else; 22.2mm top grid tier, one
candidate point per size-1 cell. -/
def packParamsA : PackParams :=
  ⟨[111/5, 73/5, 27/2, 18/5, 3/2], 2, 0, 0, 0, 0, 0, 108/5, 1, 1, 1⟩

/-- The placements emitted by the packer on an 80x80 board for the
two-large-components scenario. -/
def packRunA : List Comp :=
  (placeComponentsCore fieldA 80 80 (fun _ => 0) (fun _ => 0) packParamsA
    packRngA ⟨0, 0⟩ 20).1

/-- Oracle for the single-connector run: footprint index 9 (the 12mm-wide
jst_6pin), rotation 0, left edge, offset draw 0. -/
def packRngB : Rng := ⟨fun _ => 0, fun k => [9, 0, 0].getD k 0⟩

/-- One connector, nothing else. -/
def packParamsB : PackParams :=
  ⟨[111/5, 73/5, 27/2, 18/5, 3/2], 0, 0, 0, 0, 1, 0, 1, 1, 1, 1⟩

/-- The placements emitted by the packer on an 80x80 board for the
single-connector scenario. -/
def packRunB : List Comp :=
  (placeComponentsCore fieldA 80 80 (fun _ => 0) (fun _ => 0) packParamsB
    packRngB ⟨0, 0⟩ 20).1

/-- Five identical placements for the net-synthesis scenario. -/
def fivePlacements : List CompPlacement :=
  List.replicate 5 ⟨0, 0, 0, "small", "resistor_0402"⟩

/-- Net-synthesis parameters carrying a configured fan-out probability of
1.0 (and no signal-net attempts). -/
def netParamsC3 : RouteParams := ⟨0, 1, 2/5, 2/5⟩

/-- Oracle whose unit draws are all 0.5 (legal np.random.random outputs). -/
def rngHalf : Rng := ⟨fun _ => 1/2, fun _ => 0⟩

/-- Nets synthesized for the five placements under fan-out probability 1. -/
def netsC3 : List NetT :=
  (generateRandomNetlists fivePlacements netParamsC3 rngHalf ⟨0, 0⟩).1

/-- A single placement for the degenerate power/ground-net scenario. -/
def onePlacement : List CompPlacement := [⟨10, 10, 0, "small", "resistor_0402"⟩]

/-- Nets synthesized for the single placement with draws of 0.5: the
power and ground nets come back empty. -/
def netsC4 : List NetT :=
  (generateRandomNetlists onePlacement ⟨0, 2/5, 2/5, 2/5⟩ rngHalf ⟨0, 0⟩).1

/-- Two placements 3mm apart (center to center) for the signal-net
witness. -/
def twoPlacements : List CompPlacement :=
  [⟨10, 10, 0, "small", "resistor_0402"⟩, ⟨13, 10, 0, "small", "resistor_0402"⟩]

/-- Oracle of zero draws. -/
def rngZero : Rng := ⟨fun _ => 0, fun _ => 0⟩

/-- Nets synthesized for the two placements with one signal-net attempt:
power and ground empty, one two-pad signal net. -/
def netsC4w : List NetT :=
  (generateRandomNetlists twoPlacements ⟨1, 2/5, 2/5, 2/5⟩ rngHalf ⟨0, 0⟩).1

/-- Two placements whose pads 1 and 0 are horizontally aligned 3mm
apart. -/
def placementsC9 : List CompPlacement :=
  [⟨0, 0, 0, "small", "resistor_0402"⟩, ⟨6, 0, 0, "small", "resistor_0402"⟩]

/-- A two-pad signal net between them. -/
def netC9 : NetT := ⟨"NET_1", "signal", [(0, 1), (1, 0)]⟩

/-- Oracle choosing track width 0.3, then the dogleg branch
(route_choice = 0.5), then horizontal-first (0). -/
def rngC9 : Rng := ⟨fun k => [9/10, 1/2, 0].getD k 0, fun _ => 0⟩

/-- The track segments route_net emits for that net. -/
def tracksC9 : List TrackSegment :=
  (routeNet (fun _ => 0) (fun _ => 0) rngC9 netC9 placementsC9
    ⟨30, 2/5, 2/5, 1/2⟩ ⟨0, 0⟩).1

/-- The qfp100 placement record used against the pad-position claim. -/
def qfpPlacement : CompPlacement := ⟨0, 0, 0, "large", "qfp100"⟩

/-- Tiny engine configuration for the determinism witness. -/
def cfgW : EngineConfig :=
  ⟨4, 4, 1, 6, 1/2, 2, 0, ⟨[2, 1], 0, 0, 0, 0, 0, 0, 1, 1, 1, 1⟩, ⟨0, 2/5, 2/5, 2/5⟩⟩

theorem listSwap_mem {l : List α} {i j : ℕ} {a : α}
    (h : a ∈ listSwap l i j) : a ∈ l := by
  unfold listSwap at h
  split at h
  case h_1 x y hi hj =>
    rcases List.mem_or_eq_of_mem_set h with h2 | h2
    · rcases List.mem_or_eq_of_mem_set h2 with h3 | h3
      · exact h3
      · subst h3; exact List.mem_iff_getElem?.mpr ⟨j, hj⟩
    · subst h2; exact List.mem_iff_getElem?.mpr ⟨i, hi⟩
  case h_2 => exact h

theorem shuffleGo_mem {r : Rng} {l : List α} {s : RState} {n : ℕ} {a : α}
    (h : a ∈ (shuffleGo r l s n).1) : a ∈ l := by
  induction n generalizing l s with
  | zero => exact h
  | succ i ih =>
    unfold shuffleGo at h
    exact listSwap_mem (ih h)

theorem shuffle_mem {r : Rng} {s : RState} {l : List α} {a : α}
    (h : a ∈ (shuffle r s l).1) : a ∈ l := by
  unfold shuffle at h
  rcases hn : l.length with _ | _ | n <;> rw [hn] at h
  · exact h
  · exact h
  · exact shuffleGo_mem h

/-! Concrete-evaluation theorems.  The Batteries rational operations are
irreducible by default; making them semireducible lets the kernel evaluate
the embedded runs. -/

section ConcreteEval

attribute [local semireducible] Rat.add Rat.sub Rat.mul Rat.inv

set_option maxRecDepth 10000

/-- C1: the packer's emitted placements are claimed to keep their bounding
boxes, inflated by the per-category clearance (1.5mm tier for 2-pin
parts), disjoint.  Counterexample: in the two-large-components run, the
right decoupling companion of the first IC (index 1) and the left
companion of the second IC (index 7) are both emitted, are 2-pin parts of
the 1.5mm tier, yet their boxes are only 1.2mm apart, so the
claim-inflated boxes overlap. -/
theorem C1_counterexample :
    packRunA.length = 10 ∧
    (packRunA.getD 1 default).compType = CompType.cap ∧
    (packRunA.getD 7 default).compType = CompType.cap ∧
    claimClearance (packRunA.getD 7 default) = 3/2 ∧
    Comp.overlapsWith (packRunA.getD 7 default) (packRunA.getD 1 default)
      (claimClearance (packRunA.getD 7 default)) = true := by
  decide

/-- C2: every connector is claimed to keep its bounding box entirely
inside the 10% edge band.  Counterexample: the single-connector run emits
a 12mm-wide jst_6pin centered on the left band midline of an 80x80 board;
its box reaches x = 11, and the box point (9.5, 11.5) lies outside the
band (the margin is 8). -/
theorem C2_counterexample :
    packRunB.length = 1 ∧
    (packRunB.getD 0 default).compType = CompType.connector ∧
    inBoundingBox (packRunB.getD 0 default) (19/2, 23/2) ∧
    ¬ inClaimBand 80 80 (19/2, 23/2) := by
  decide

/-- C3: inclusion in the power/ground nets is claimed to follow the
configured fanout_probability; with probability 1.0 and five placements
both nets should hold five pads each.  Counterexample: the code compares
each draw against the hard-coded 0.4 and never reads the parameter, so
with the configured probability 1.0 and draws of 0.5 both nets come back
empty. -/
theorem C3_counterexample :
    netParamsC3.fanoutProbability = 1 ∧
    (netsC3.getD 0 default).netType = "power" ∧
    (netsC3.getD 0 default).pads.length = 0 ∧
    (netsC3.getD 1 default).netType = "ground" ∧
    (netsC3.getD 1 default).pads.length = 0 ∧
    (netsC3.getD 0 default).pads.length ≠ 5 := by
  decide

/-- C4: every returned net is claimed to hold at least two pads, the
power and ground nets included.  Counterexample: with one placement whose
inclusion draw is 0.5, the returned list still contains the power and
ground nets, both with zero pads. -/
theorem C4_counterexample :
    ¬ ∀ net ∈ netsC4, 2 ≤ net.pads.length := by
  decide

/-- C6: the tier index is claimed to be clamp(round((1-d)*(n_tiers-1))).
Counterexample: at density 3/5 with the default five tiers the code's
int() truncation of 1.6 picks index 1 (14.6mm), while the claimed
rounding picks index 2 (13.5mm). -/
theorem C6_counterexample :
    getCellSize [122/5, 73/5, 27/2, 18/5, 3/2] (3/5) = 73/5 ∧
    ([122/5, 73/5, 27/2, 18/5, (3/2 : ℚ)].getD
      (min 4 (round ((1 - (3/5 : ℚ)) * 4)).toNat) 0) = 27/2 ∧
    (73/5 : ℚ) ≠ 27/2 := by
  refine ⟨by decide, ?_, by decide⟩
  have h : round ((1 - (3/5 : ℚ)) * 4) = 2 := by
    rw [round_eq]
    norm_num
  rw [h]
  decide

/-- C7: pad positions are claimed to derive from the placement's actual
rotated bounding box (pins 0-3) and half the larger footprint dimension
(pins from 4 on).  Counterexample: the qfp100 footprint is 14x14mm, so
the claimed pin-0 pad sits at x = -7 from the center, but the code uses a
fixed 3x3mm box and returns x = -1.5. -/
theorem C7_counterexample :
    (catalogFootprint "qfp100").w = 14 ∧ (catalogFootprint "qfp100").h = 14 ∧
    getComponentPadPosition (fun _ => 0) (fun _ => 0) qfpPlacement 0 = (-(3/2), 0) ∧
    specPadPosition (fun _ => 0) (fun _ => 0) 14 14 qfpPlacement 0 = (-7, 0) ∧
    ((-(3/2) : ℚ), (0 : ℚ)) ≠ (-7, 0) := by
  decide

/-- C9: for pads less than 5mm apart the emitted path is claimed to be a
single straight segment or a two-segment path with exactly one 90-degree
bend.  Counterexample: for axis-aligned pads 3mm apart the dogleg branch
emits two segments whose second is zero-length, so the path has two
segments and no bend. -/
theorem C9_counterexample :
    distSq (padPos (fun _ => 0) (fun _ => 0) placementsC9 (0, 1))
      (padPos (fun _ => 0) (fun _ => 0) placementsC9 (1, 0)) = 9 ∧
    tracksC9.length = 2 ∧
    (tracksC9.getD 1 default).startX = (tracksC9.getD 1 default).endX ∧
    (tracksC9.getD 1 default).startY = (tracksC9.getD 1 default).endY ∧
    ¬ claimShortPath tracksC9 := by
  decide

/-- C5: on a constant raw noise field the normalization is claimed to
avoid dividing by zero and return the uniform 0.5 field.  The code's
min-max rescale divides by max - min unguarded; for the constant field
(here a 2x2 field of zeros) that is the float 0/0, a NaN-filled array,
modelled as none - not the claimed uniform field. -/
theorem C5_code_eval :
    generatePerlinNoise (fun q => q) (fun _ _ _ _ _ _ _ _ => 0) 2 2 1 6 (1/2) 2
      114 0 = none := by
  rfl

end ConcreteEval

/-- C7 (amended): the code's pad-position rule is exactly the spec's rule
specialized to a fixed 3x3mm footprint: pins 0-3 at the side midpoints of
the (rotation-swapped) 3x3 box, pins from 4 on on a circle of radius 1.5mm
at angle (pad_index/8)*2*pi. -/
theorem C7_amended (cosT sinT : ℚ → ℚ) (p : CompPlacement) (i : ℕ) :
    getComponentPadPosition cosT sinT p i = specPadPosition cosT sinT 3 3 p i :=
  rfl

/-- C10: two engine invocations with the same seed, configuration and
external numeric primitives produce identical placement and track lists;
the embedded engine is a pure function of (seed, config), all randomness
flowing from the seed-derived oracle stream. -/
theorem C10_deterministic (draws : ℤ → Rng)
    (pn : ℚ → ℚ → ℕ → ℚ → ℚ → ℤ → ℤ → ℤ → ℚ) (sqrtF cosT sinT : ℚ → ℚ)
    (fuel : ℕ) (seed1 seed2 : ℤ) (cfg1 cfg2 : EngineConfig)
    (hseed : seed1 = seed2) (hcfg : cfg1 = cfg2) :
    engineRun draws pn sqrtF cosT sinT seed1 cfg1 fuel =
      engineRun draws pn sqrtF cosT sinT seed2 cfg2 fuel := by
  subst hseed
  subst hcfg
  rfl

/-- C10 witness: determinism applied at a concrete seed and configuration,
discharging both equality hypotheses. -/
theorem C10_witness :
    engineRun (fun _ => rngZero) (fun x _ _ _ _ _ _ _ => x) (fun q => q)
        (fun _ => 0) (fun _ => 0) 114 cfgW 5 =
      engineRun (fun _ => rngZero) (fun x _ _ _ _ _ _ _ => x) (fun q => q)
        (fun _ => 0) (fun _ => 0) 114 cfgW 5 :=
  C10_deterministic (fun _ => rngZero) (fun x _ _ _ _ _ _ _ => x) (fun q => q)
    (fun _ => 0) (fun _ => 0) 5 114 114 cfgW cfgW rfl rfl

theorem getD_mem {l : List α} {n : ℕ} {d : α} (h : n < l.length) :
    l.getD n d ∈ l := by
  rw [List.getD_eq_getElem?_getD, List.getElem?_eq_getElem h]
  exact List.getElem_mem h

theorem mem_insertByKey {x y : ℚ × ℕ × ℕ} :
    ∀ {l}, y ∈ insertByKey x l → y = x ∨ y ∈ l := by
  intro l
  induction l with
  | nil => intro h; simp [insertByKey] at h; exact Or.inl h
  | cons z zs ih =>
    intro h
    unfold insertByKey at h
    split at h
    · rcases List.mem_cons.mp h with h1 | h1
      · exact Or.inr (List.mem_cons.mpr (Or.inl h1))
      · rcases ih h1 with h2 | h2
        · exact Or.inl h2
        · exact Or.inr (List.mem_cons.mpr (Or.inr h2))
    · rcases List.mem_cons.mp h with h1 | h1
      · exact Or.inl h1
      · exact Or.inr h1

theorem length_insertByKey (x : ℚ × ℕ × ℕ) :
    ∀ (l : List (ℚ × ℕ × ℕ)), (insertByKey x l).length = l.length + 1 := by
  intro l
  induction l with
  | nil => rfl
  | cons z zs ih =>
    unfold insertByKey
    split
    · simp [ih]
    · simp

theorem mem_sortByKey_aux {y : ℚ × ℕ × ℕ} :
    ∀ (l acc : List (ℚ × ℕ × ℕ)),
      y ∈ l.foldl (fun acc x => insertByKey x acc) acc → y ∈ acc ∨ y ∈ l := by
  intro l
  induction l with
  | nil => intro acc h; exact Or.inl h
  | cons z zs ih =>
    intro acc h
    rcases ih (insertByKey z acc) h with h1 | h1
    · rcases mem_insertByKey h1 with h2 | h2
      · exact Or.inr (List.mem_cons.mpr (Or.inl h2))
      · exact Or.inl h2
    · exact Or.inr (List.mem_cons.mpr (Or.inr h1))

theorem mem_sortByKey {y : ℚ × ℕ × ℕ} {l : List (ℚ × ℕ × ℕ)}
    (h : y ∈ sortByKey l) : y ∈ l := by
  rcases mem_sortByKey_aux l [] h with h1 | h1
  · simp at h1
  · exact h1

theorem length_sortByKey_aux :
    ∀ (l acc : List (ℚ × ℕ × ℕ)),
      (l.foldl (fun acc x => insertByKey x acc) acc).length = acc.length + l.length := by
  intro l
  induction l with
  | nil => intro acc; rfl
  | cons z zs ih =>
    intro acc
    rw [List.foldl_cons, ih, length_insertByKey]
    simp only [List.length_cons]
    omega

theorem length_sortByKey (l : List (ℚ × ℕ × ℕ)) :
    (sortByKey l).length = l.length := by
  rw [sortByKey, length_sortByKey_aux]
  simp

theorem buildCandidates_mem {ps : List CompPlacement} {si : ℕ}
    {used : List (ℕ × ℕ)} {c : ℚ × ℕ × ℕ}
    (h : c ∈ buildCandidates ps si used) :
    c.2.1 ≠ si ∧ 2 ≤ c.2.2 ∧ c.2.2 < 8 ∧ c.2 ∉ used := by
  unfold buildCandidates at h
  rcases List.mem_filterMap.mp h with ⟨ti, _, hf⟩
  split at hf
  · exact absurd hf (by simp)
  · rename_i hne
    cases hfind : (List.range' 2 6).find? (fun pin => !(used.contains (ti, pin))) with
    | none => rw [hfind] at hf; exact absurd hf (by simp)
    | some pin =>
      rw [hfind] at hf
      simp only [Option.some.injEq] at hf
      have hmem := List.mem_of_find?_eq_some hfind
      have hpred := List.find?_some hfind
      simp only [Bool.not_eq_true'] at hpred
      have hrange := List.mem_range'_1.mp hmem
      have hnotin : (ti, pin) ∉ used := by
        intro hcontra
        have h2 : used.contains (ti, pin) = true := List.elem_eq_true_of_mem hcontra
        rw [hpred] at h2
        exact Bool.false_ne_true h2
      subst hf
      refine ⟨hne, hrange.1, ?_, hnotin⟩
      show pin < 8
      have := hrange.2
      omega

theorem pgLoop_pads_shape (r : Rng) :
    ∀ (l : List ℕ) (s : RState),
      (∀ p ∈ (pgLoop r l s).1, p.2 = 0) ∧ (∀ p ∈ (pgLoop r l s).2.1, p.2 = 1) := by
  intro l
  induction l with
  | nil => intro s; exact ⟨by simp [pgLoop], by simp [pgLoop]⟩
  | cons i rest ih =>
    intro s
    constructor
    · intro p hp
      simp only [pgLoop, drawFloat] at hp
      split at hp
      · rcases List.mem_cons.mp hp with h1 | h1
        · subst h1; rfl
        · exact ((ih _).1) p h1
      · exact ((ih _).1) p hp
    · intro p hp
      simp only [pgLoop, drawFloat] at hp
      split at hp
      · rcases List.mem_cons.mp hp with h1 | h1
        · subst h1; rfl
        · exact ((ih _).2) p h1
      · exact ((ih _).2) p hp

theorem pgLoop_range (r : Rng) :
    ∀ (n a si : ℕ),
      pgLoop r (List.range' a n) ⟨a, si⟩ =
        (((List.range' a n).filter fun i => decide (r.floats i < 2/5)).map (fun i => (i, 0)),
         ((List.range' a n).filter fun i => decide (r.floats i < 2/5)).map (fun i => (i, 1)),
         ⟨a + n, si⟩) := by
  intro n
  induction n with
  | zero => intro a si; rfl
  | succ m ih =>
    intro a si
    have hr : List.range' a (m + 1) = a :: List.range' (a + 1) m := rfl
    rw [hr]
    simp only [pgLoop, drawFloat, List.filter_cons]
    rw [ih (a + 1) si]
    have harith : a + 1 + m = a + (m + 1) := by omega
    by_cases h : r.floats a < 2/5
    · simp [h, harith]
    · simp [h, harith]

theorem signalLoop_all (ps : List CompPlacement) (r : Rng) :
    ∀ (n counter : ℕ) (nets : List NetT) (used : List (ℕ × ℕ)) (s : RState),
      (∀ net ∈ nets, net.netType = "signal" ∧ net.pads.length = 2) →
      ∀ net ∈ (signalLoop ps r n counter nets used s).1,
        net.netType = "signal" ∧ net.pads.length = 2 := by
  intro n
  induction n with
  | zero => intro counter nets used s h net hm; exact h net hm
  | succ m ih =>
    intro counter nets used s h net hm
    simp only [signalLoop, drawInt] at hm
    split at hm
    · exact ih _ _ _ _ h net hm
    · split at hm
      · exact ih _ _ _ _ h net hm
      · refine ih _ _ _ _ ?_ net hm
        intro net2 hm2
        rcases List.mem_append.mp hm2 with h2 | h2
        · exact h net2 h2
        · rcases List.mem_singleton.mp h2 with rfl
          exact ⟨rfl, rfl⟩

theorem signalLoop_disjoint (ps : List CompPlacement) (r : Rng) :
    ∀ (n counter : ℕ) (nets : List NetT) (used : List (ℕ × ℕ)) (s : RState),
      (∀ net ∈ nets, ∀ p ∈ net.pads, p ∈ used ∧ 2 ≤ p.2) →
      nets.Pairwise padsDisjoint →
      (∀ net ∈ (signalLoop ps r n counter nets used s).1, ∀ p ∈ net.pads, 2 ≤ p.2) ∧
        ((signalLoop ps r n counter nets used s).1).Pairwise padsDisjoint := by
  intro n
  induction n with
  | zero =>
    intro counter nets used s h hpw
    exact ⟨fun net hm p hp => (h net hm p hp).2, hpw⟩
  | succ m ih =>
    intro counter nets used s h hpw
    simp only [signalLoop, drawInt]
    split
    · exact ih _ _ _ _ h hpw
    · rename_i hused
      split
      · refine ih _ _ _ _ ?_ hpw
        intro net2 hm2 p hp
        have hthis := h net2 hm2 p hp
        exact ⟨List.mem_append.mpr (Or.inl hthis.1), hthis.2⟩
      · rename_i hcands
        set si := r.ints s.i % ps.length with hsi
        set spin := 2 + r.ints (s.i + 1) % 6 with hspin
        set used1 := used ++ [(si, spin)] with hused1
        set cands := buildCandidates ps si used1 with hcands_def
        set sorted := sortByKey cands with hsorted
        set ci := r.ints (s.i + 1 + 1) % 5 with hci
        set chosen := sorted.getD (min ci (cands.length - 1)) default with hchosen
        have hchosen_mem : chosen ∈ cands := by
          apply mem_sortByKey
          rw [hchosen]
          apply getD_mem
          rw [length_sortByKey]
          have hlen : cands.length ≠ 0 := by
            intro h0
            exact hcands (List.isEmpty_iff_length_eq_zero.mpr h0)
          omega
        have hcprops := buildCandidates_mem hchosen_mem
        have hsourceNotUsed : (si, spin) ∉ used := by
          intro hcontra
          exact hused (List.elem_eq_true_of_mem hcontra)
        refine ih _ _ _ _ ?_ ?_
        · intro net2 hm2 p hp
          rcases List.mem_append.mp hm2 with h2 | h2
          · have hthis := h net2 h2 p hp
            exact ⟨List.mem_append.mpr (Or.inl (List.mem_append.mpr (Or.inl hthis.1))),
              hthis.2⟩
          · rcases List.mem_singleton.mp h2 with rfl
            rcases List.mem_cons.mp hp with h3 | h3
            · rcases h3 with rfl
              refine ⟨List.mem_append.mpr (Or.inl (List.mem_append.mpr
                (Or.inr (List.mem_singleton.mpr rfl)))), ?_⟩
              show 2 ≤ spin
              omega
            · rcases List.mem_singleton.mp h3 with rfl
              exact ⟨List.mem_append.mpr (Or.inr (List.mem_singleton.mpr rfl)),
                hcprops.2.1⟩
        · rw [List.pairwise_append]
          refine ⟨hpw, List.pairwise_singleton _ _, ?_⟩
          intro a ha b hb
          rcases List.mem_singleton.mp hb with rfl
          intro p hp hcontra
          have hpu := (h a ha p hp).1
          rcases List.mem_cons.mp hcontra with h3 | h3
          · rcases h3 with rfl
            exact hsourceNotUsed hpu
          · rcases List.mem_singleton.mp h3 with rfl
            exact hcprops.2.2.2 (List.mem_append.mpr (Or.inl hpu))

/-- C3 (amended): the synthesizer always returns the power net (pin 0) and
ground net (pin 1) first, and a placement joins both exactly when its unit
draw is below the fixed constant 0.4 - the configured fanout_probability
parameter is never consulted (the right side does not depend on params).
In particular, when every draw is below 0.4, both nets carry one pad per
placement. -/
theorem C3_amended (ps : List CompPlacement) (params : RouteParams) (r : Rng) :
    ((generateRandomNetlists ps params r ⟨0, 0⟩).1).take 2 =
      [⟨"VCC", "power", powerPadsSpec ps.length r⟩,
       ⟨"GND", "ground", groundPadsSpec ps.length r⟩] := by
  simp only [generateRandomNetlists, powerPadsSpec, groundPadsSpec]
  rw [List.range_eq_range']
  rw [pgLoop_range r ps.length 0 0]
  rfl

/-- C4 (amended): every net after the first two is a signal net with
exactly two pads (signal attempts that find no second pad are discarded);
the power and ground nets are always returned as the first two entries,
regardless of how few pads they hold. -/
theorem C4_amended (ps : List CompPlacement) (params : RouteParams) (r : Rng)
    (s : RState) :
    ∀ net ∈ ((generateRandomNetlists ps params r s).1).drop 2,
      net.netType = "signal" ∧ net.pads.length = 2 := by
  intro net hm
  simp only [generateRandomNetlists, List.drop_succ_cons, List.drop_zero] at hm
  exact signalLoop_all ps r _ _ _ _ _ (by simp) net hm

/-- C4 witness: the amended theorem applied to a concrete run that emits
one signal net; membership is discharged by evaluation. -/
theorem C4_witness :
    (netsC4w.getD 2 default).netType = "signal" ∧
      (netsC4w.getD 2 default).pads.length = 2 :=
  C4_amended twoPlacements ⟨1, 2/5, 2/5, 2/5⟩ rngHalf ⟨0, 0⟩
    (netsC4w.getD 2 default) (by decide)

/-- C8: across one invocation of net synthesis, no (component, pad) pair
appears in two different nets: power pads use pin 0, ground pads pin 1,
and signal pads (pins 2-7) are burned in the used-pin set before any
reuse. -/
theorem C8_no_shared_pads (ps : List CompPlacement) (params : RouteParams)
    (r : Rng) (s : RState) :
    ((generateRandomNetlists ps params r s).1).Pairwise padsDisjoint := by
  have hshape := pgLoop_pads_shape r (List.range ps.length) s
  have hsig := signalLoop_disjoint ps r params.maxSignalNets 1 [] []
    (pgLoop r (List.range ps.length) s).2.2 (by simp) List.Pairwise.nil
  simp only [generateRandomNetlists]
  refine List.Pairwise.cons ?_ (List.Pairwise.cons ?_ hsig.2)
  · intro b hb p hp hcontra
    have hp0 : p.2 = 0 := hshape.1 p hp
    rcases List.mem_cons.mp hb with rfl | hb2
    · have hp1 : p.2 = 1 := hshape.2 p hcontra
      omega
    · have hp2 : 2 ≤ p.2 := hsig.1 b hb2 p hcontra
      omega
  · intro b hb p hp hcontra
    have hp1 : p.2 = 1 := hshape.2 p hp
    have hp2 : 2 ≤ p.2 := hsig.1 b hb p hcontra
    omega

/-- C8 witness: pad disjointness instantiated on a concrete synthesis run
with one signal net. -/
theorem C8_witness : netsC4w.Pairwise padsDisjoint :=
  C8_no_shared_pads twoPlacements ⟨1, 2/5, 2/5, 2/5⟩ rngHalf ⟨0, 0⟩

theorem pyTrunc_eq_floor {q : ℚ} (hq : 0 ≤ q) : pyTrunc q = ⌊q⌋ := by
  unfold pyTrunc
  rw [Rat.floor_def]
  exact Int.tdiv_eq_ediv (Rat.num_nonneg.mpr hq) (Int.natCast_nonneg q.den)

theorem getCellSize_formula (sizes : List ℚ) (nv : ℚ) (hne : sizes ≠ [])
    (h0 : 0 ≤ nv) (h1 : nv ≤ 1) :
    getCellSize sizes nv =
      sizes.getD (min (sizes.length - 1)
        (⌊(1 - nv) * ((sizes.length : ℚ) - 1)⌋).toNat) 0 := by
  unfold getCellSize
  dsimp only
  have hlen : 1 ≤ sizes.length := by
    cases sizes with
    | nil => exact absurd rfl hne
    | cons a l => simp
  have hq : 0 ≤ (1 - nv) * ((sizes.length : ℚ) - 1) := by
    apply mul_nonneg
    · linarith
    · have hc : (1 : ℚ) ≤ (sizes.length : ℚ) := by exact_mod_cast hlen
      linarith
  rw [pyTrunc_eq_floor hq]
  have hfl : 0 ≤ ⌊(1 - nv) * ((sizes.length : ℚ) - 1)⌋ := Int.floor_nonneg.mpr hq
  congr 1
  have h1 : 0 ≤ min ((sizes.length : ℤ) - 1) ⌊(1 - nv) * ((sizes.length : ℚ) - 1)⌋ :=
    le_min (by omega) hfl
  rw [max_eq_right h1]
  rcases le_total ((sizes.length : ℤ) - 1)
      ⌊(1 - nv) * ((sizes.length : ℚ) - 1)⌋ with hc | hc
  · rw [min_eq_left hc, Nat.min_eq_left (by omega)]
    omega
  · rw [min_eq_right hc, Nat.min_eq_right (by omega)]

theorem getCellSize_mem (sizes : List ℚ) (hne : sizes ≠ []) (nv : ℚ) :
    getCellSize sizes nv ∈ sizes := by
  unfold getCellSize
  apply getD_mem
  have hlen : 1 ≤ sizes.length := by
    cases sizes with
    | nil => exact absurd rfl hne
    | cons a l => simp
  omega

theorem rowCells_shape (noiseMap : ℕ → ℕ → ℚ) (mapH mapW : ℕ) (sizes : List ℚ)
    (padding y rowH : ℚ) :
    ∀ (fuel : ℕ) (x : ℚ),
      ∀ cell ∈ rowCells noiseMap mapH mapW sizes padding y rowH fuel x,
        cell.y = y + padding ∧ cell.h = max (1/10) (rowH - 2 * padding) := by
  intro fuel
  induction fuel with
  | zero => intro x cell h; cases h
  | succ f ih =>
    intro x cell h
    simp only [rowCells] at h
    split at h
    · rcases List.mem_cons.mp h with rfl | h2
      · exact ⟨rfl, rfl⟩
      · exact ih _ cell h2
    · cases h

theorem gridRows_y_lb (noiseMap : ℕ → ℕ → ℚ) (mapH mapW : ℕ) (sizes : List ℚ)
    (padding : ℚ) (hne : sizes ≠ []) (hpos : ∀ sz ∈ sizes, 0 < sz) :
    ∀ (fuel : ℕ) (y : ℚ),
      ∀ cell ∈ gridRows noiseMap mapH mapW sizes padding fuel y,
        y + padding ≤ cell.y := by
  intro fuel
  induction fuel with
  | zero => intro y cell h; cases h
  | succ f ih =>
    intro y cell h
    simp only [gridRows] at h
    split at h
    · rename_i hy
      rcases List.mem_append.mp h with h2 | h2
      · rw [(rowCells_shape noiseMap mapH mapW sizes padding y _ _ _ cell h2).1]
      · have hlb := ih (y + rowHeightAt noiseMap mapH mapW sizes y) cell h2
        have hrh : 0 < rowHeightAt noiseMap mapH mapW sizes y := by
          unfold rowHeightAt
          apply lt_min
          · exact hpos _ (getCellSize_mem sizes hne _)
          · linarith
        linarith
    · cases h

theorem gridRows_row_height (noiseMap : ℕ → ℕ → ℚ) (mapH mapW : ℕ)
    (sizes : List ℚ) (padding : ℚ) (hne : sizes ≠ [])
    (hpos : ∀ sz ∈ sizes, 0 < sz) :
    ∀ (fuel : ℕ) (y : ℚ),
      ∀ c1 ∈ gridRows noiseMap mapH mapW sizes padding fuel y,
        ∀ c2 ∈ gridRows noiseMap mapH mapW sizes padding fuel y,
          c1.y = c2.y → c1.h = c2.h := by
  intro fuel
  induction fuel with
  | zero => intro y c1 h1; cases h1
  | succ f ih =>
    intro y c1 h1 c2 h2 hy
    simp only [gridRows] at h1 h2
    split at h1
    · rename_i hylt
      rw [if_pos hylt] at h2
      have hrh : 0 < rowHeightAt noiseMap mapH mapW sizes y := by
        unfold rowHeightAt
        apply lt_min
        · exact hpos _ (getCellSize_mem sizes hne _)
        · linarith
      rcases List.mem_append.mp h1 with g1 | g1 <;>
        rcases List.mem_append.mp h2 with g2 | g2
      · have s1 := rowCells_shape noiseMap mapH mapW sizes padding y _ _ _ c1 g1
        have s2 := rowCells_shape noiseMap mapH mapW sizes padding y _ _ _ c2 g2
        rw [s1.2, s2.2]
      · have s1 := rowCells_shape noiseMap mapH mapW sizes padding y _ _ _ c1 g1
        have hlb := gridRows_y_lb noiseMap mapH mapW sizes padding hne hpos f _ c2 g2
        rw [s1.1] at hy
        linarith
      · have s2 := rowCells_shape noiseMap mapH mapW sizes padding y _ _ _ c2 g2
        have hlb := gridRows_y_lb noiseMap mapH mapW sizes padding hne hpos f _ c1 g1
        rw [s2.1] at hy
        linarith
      · exact ih _ c1 g1 c2 g2 hy
    · cases h1

/-- C6 (amended): the tier index is chosen by clamped truncation - not
rounding - of (1 - density) * (n_tiers - 1) (for densities in [0, 1] the
clamp reduces to a min with n_tiers - 1), and all cells of one row of the
adaptive grid share the row's height, fixed when the row starts. -/
theorem C6_amended :
    (∀ (sizes : List ℚ) (nv : ℚ), sizes ≠ [] → 0 ≤ nv → nv ≤ 1 →
      getCellSize sizes nv =
        sizes.getD (min (sizes.length - 1)
          (⌊(1 - nv) * ((sizes.length : ℚ) - 1)⌋).toNat) 0) ∧
    (∀ (noiseMap : ℕ → ℕ → ℚ) (mapH mapW : ℕ) (sizes : List ℚ) (padding : ℚ)
        (fuel : ℕ), sizes ≠ [] → (∀ sz ∈ sizes, 0 < sz) →
      ∀ c1 ∈ createAdaptiveGrid noiseMap mapH mapW sizes padding fuel,
        ∀ c2 ∈ createAdaptiveGrid noiseMap mapH mapW sizes padding fuel,
          c1.y = c2.y → c1.h = c2.h) := by
  constructor
  · exact getCellSize_formula
  · intro noiseMap mapH mapW sizes padding fuel hne hpos
    exact gridRows_row_height noiseMap mapH mapW sizes padding hne hpos fuel 0

/-- C9 (amended): for a pad pair strictly closer than 5mm the emitted
waypoints are a straight segment or route_dogleg's two segments through
(end_x, start_y) or (start_x, end_y); when the pads share a coordinate one
dogleg segment degenerates to zero length (no actual bend), and a
Manhattan path of three or more segments is never emitted in this band. -/
theorem C9_amended (r : Rng) (s : RState) (st en : ℚ × ℚ)
    (h : distSq st en < 25) :
    (routePairWaypoints r s st en).1 = [st, en] ∨
    (routePairWaypoints r s st en).1 = [st, (en.1, st.2), en] ∨
    (routePairWaypoints r s st en).1 = [st, (st.1, en.2), en] := by
  simp only [routePairWaypoints, drawFloat, routeDogleg]
  rw [if_pos h]
  by_cases hu : r.floats s.f < 1/2
  · rw [if_pos hu]
    exact Or.inl rfl
  · rw [if_neg hu]
    by_cases hv : r.floats (s.f + 1) < 1/2
    · rw [if_pos hv]
      exact Or.inr (Or.inl rfl)
    · rw [if_neg hv]
      exact Or.inr (Or.inr rfl)

section WitnessEval

attribute [local semireducible] Rat.add Rat.sub Rat.mul Rat.inv

set_option maxRecDepth 10000

/-- C6 witness: the amended theorem applied to a concrete tier list and a
concrete adaptive grid. -/
theorem C6_witness :
    (getCellSize [2, 1] (1/2) =
      ([2, 1] : List ℚ).getD (min (([2, 1] : List ℚ).length - 1)
        (⌊(1 - (1/2 : ℚ)) * ((([2, 1] : List ℚ).length : ℚ) - 1)⌋).toNat) 0) ∧
    ((createAdaptiveGrid (fun _ _ => 1) 4 4 [2] 0 5).getD 0 default).h =
      ((createAdaptiveGrid (fun _ _ => 1) 4 4 [2] 0 5).getD 0 default).h :=
  ⟨C6_amended.1 [2, 1] (1/2) (by decide) (by norm_num) (by norm_num),
   C6_amended.2 (fun _ _ => 1) 4 4 [2] 0 5 (by decide) (by decide)
     ((createAdaptiveGrid (fun _ _ => 1) 4 4 [2] 0 5).getD 0 default) (by decide)
     ((createAdaptiveGrid (fun _ _ => 1) 4 4 [2] 0 5).getD 0 default) (by decide)
     rfl⟩

/-- C9 witness: the amended sub-5mm path theorem applied to the concrete
axis-aligned 3mm pad pair. -/
theorem C9_witness :
    (routePairWaypoints rngC9 ⟨1, 0⟩ ((3/2 : ℚ), (0 : ℚ)) ((9/2 : ℚ), (0 : ℚ))).1 =
        [((3/2 : ℚ), (0 : ℚ)), ((9/2 : ℚ), (0 : ℚ))] ∨
    (routePairWaypoints rngC9 ⟨1, 0⟩ ((3/2 : ℚ), (0 : ℚ)) ((9/2 : ℚ), (0 : ℚ))).1 =
        [((3/2 : ℚ), (0 : ℚ)), ((9/2 : ℚ), (0 : ℚ)), ((9/2 : ℚ), (0 : ℚ))] ∨
    (routePairWaypoints rngC9 ⟨1, 0⟩ ((3/2 : ℚ), (0 : ℚ)) ((9/2 : ℚ), (0 : ℚ))).1 =
        [((3/2 : ℚ), (0 : ℚ)), ((3/2 : ℚ), (0 : ℚ)), ((9/2 : ℚ), (0 : ℚ))] :=
  C9_amended rngC9 ⟨1, 0⟩ ((3/2 : ℚ), (0 : ℚ)) ((9/2 : ℚ), (0 : ℚ)) (by decide)

end WitnessEval

theorem canPlace_overlaps {c : Comp} {noiseMap : ℕ → ℕ → ℚ} {mapH mapW : ℕ}
    {placed : List Comp} (h : c.canPlace noiseMap mapH mapW placed = true) :
    ∀ p ∈ placed, c.overlapsWith p 1 = false := by
  unfold Comp.canPlace at h
  split at h
  · exact absurd h (by simp)
  · split at h
    · exact absurd h (by simp)
    · intro p hp
      have h2 := List.all_eq_true.mp h p hp
      simpa using h2

theorem good_append {L : List Comp} {c : Comp}
    (hL : L.Pairwise (fun a b => b.overlapsWith a (appliedClearance b) = false))
    (hc : ∀ p ∈ L, c.overlapsWith p (appliedClearance c) = false) :
    (L ++ [c]).Pairwise
      (fun a b => b.overlapsWith a (appliedClearance b) = false) := by
  rw [List.pairwise_append]
  refine ⟨hL, List.pairwise_singleton _ _, ?_⟩
  intro a ha b hb
  rcases List.mem_singleton.mp hb with rfl
  exact hc a ha

theorem tryPoints_sound {noiseMap : ℕ → ℕ → ℚ} {mapH mapW : ℕ}
    {bW bH margin : ℚ} {placed : List Comp} {occ : List (ℤ × ℤ)}
    {fp : Footprint} {rot : ℕ} {ctype : CompType} {nv : ℚ} :
    ∀ {pts : List (ℚ × ℚ)} {c : Comp} {key : ℤ × ℤ},
      tryPoints noiseMap mapH mapW bW bH margin placed occ fp rot ctype nv pts =
        some (c, key) →
      (∀ p ∈ placed, c.overlapsWith p (minSpacingFor fp.pins) = false) ∧
        c.w = fp.w ∧ c.h = fp.h ∧ c.numPins = fp.pins ∧ c.compType = ctype ∧
        (0 ≤ margin → interiorBox margin bW bH c) := by
  intro pts
  induction pts with
  | nil => intro c key h; cases h
  | cons pt rest ih =>
    obtain ⟨px, py⟩ := pt
    intro c key h
    simp only [tryPoints] at h
    split at h
    · exact ih h
    · split at h
      · exact ih h
      · rename_i hocc hko
        split at h
        · rename_i hcond
          rw [Option.some.injEq] at h
          injection h with h1 h2
          subst h1
          rw [Bool.and_eq_true] at hcond
          obtain ⟨hall, hcp⟩ := hcond
          simp only [isInKeepout, decide_eq_true_eq] at hko
          push_neg at hko
          obtain ⟨hk1, hk2, hk3, hk4⟩ := hko
          refine ⟨?_, rfl, rfl, rfl, rfl, ?_⟩
          · intro p hp
            have h3 := List.all_eq_true.mp hall p hp
            simpa using h3
          · intro hm
            have hx : max (fp.w / 2) (min (bW - fp.w / 2) px) = px := by
              rw [min_eq_right (by linarith), max_eq_right (by linarith)]
            have hy : max (fp.h / 2) (min (bH - fp.h / 2) py) = py := by
              rw [min_eq_right (by linarith), max_eq_right (by linarith)]
            unfold interiorBox
            refine ⟨?_, ?_, ?_, ?_⟩ <;>
              simp only [hx, hy] <;> linarith
        · exact ih h

theorem tryCells_sound {noiseMap : ℕ → ℕ → ℚ} {mapH mapW : ℕ}
    {bW bH margin : ℚ} {placed : List Comp} {occ : List (ℤ × ℤ)}
    {fp : Footprint} {rot : ℕ} {ctype : CompType} {gridSpacing : ℚ} {r : Rng} :
    ∀ {cells : List GridCell} {s : RState} {c : Comp} {key : ℤ × ℤ},
      (tryCells noiseMap mapH mapW bW bH margin placed occ fp rot ctype
        gridSpacing r cells s).1 = some (c, key) →
      (∀ p ∈ placed, c.overlapsWith p (minSpacingFor fp.pins) = false) ∧
        c.w = fp.w ∧ c.h = fp.h ∧ c.numPins = fp.pins ∧ c.compType = ctype ∧
        (0 ≤ margin → interiorBox margin bW bH c) := by
  intro cells
  induction cells with
  | nil => intro s c key h; cases h
  | cons cell rest ih =>
    intro s c key h
    simp only [tryCells] at h
    split at h
    · rename_i res hres
      rw [Option.some.injEq] at h
      subst h
      exact tryPoints_sound hres
    · exact ih h

theorem tryPlaceComponent_sound {noiseMap : ℕ → ℕ → ℚ} {mapH mapW : ℕ}
    {bW bH margin : ℚ} {fps : List Footprint}
    {preferredCells allCells : List GridCell} {gridSpacing : ℚ}
    {ctype : CompType} {allowRotation : Bool} {placed : List Comp}
    {occ : List (ℤ × ℤ)} {r : Rng} {s : RState} {c : Comp} {key : ℤ × ℤ}
    (h : (tryPlaceComponent noiseMap mapH mapW bW bH margin fps preferredCells
      allCells gridSpacing ctype allowRotation placed occ r s).1 = some (c, key)) :
    (∀ p ∈ placed, c.overlapsWith p (minSpacingFor c.numPins) = false) ∧
      c.compType = ctype ∧ (0 ≤ margin → interiorBox margin bW bH c) := by
  simp only [tryPlaceComponent] at h
  split at h <;> split at h <;>
    first
      | cases h
      | · have hs := tryCells_sound h
          refine ⟨?_, hs.2.2.2.2.1, hs.2.2.2.2.2⟩
          intro p hp
          have h4 := hs.1 p hp
          rwa [hs.2.2.2.1]

theorem capsFoldAux (noiseMap : ℕ → ℕ → ℚ) (mapH mapW : ℕ)
    (bW bH margin : ℚ) (placed : List Comp) (largeComp : Comp) :
    ∀ (offsets : List (ℚ × ℚ)) (acc : List Comp),
      (placed ++ acc).Pairwise
        (fun a b => b.overlapsWith a (appliedClearance b) = false) →
      (∀ cp ∈ acc, cp.compType = CompType.cap ∧
        margin ≤ cp.x ∧ cp.x ≤ bW - margin ∧ margin ≤ cp.y ∧ cp.y ≤ bH - margin) →
      (placed ++ offsets.foldl
        (fun caps off =>
          let capX := largeComp.x + off.1
          let capY := largeComp.y + off.2
          if capX < margin ∨ capX > bW - margin ∨ capY < margin ∨ capY > bH - margin then
            caps
          else
            let cap : Comp := ⟨1, 1/2, 2, capX, capY, 0, 0, .cap, "capacitor_0402"⟩
            if cap.canPlace noiseMap mapH mapW (placed ++ caps) then caps ++ [cap]
            else caps) acc).Pairwise
          (fun a b => b.overlapsWith a (appliedClearance b) = false) ∧
      ∀ cp ∈ offsets.foldl
        (fun caps off =>
          let capX := largeComp.x + off.1
          let capY := largeComp.y + off.2
          if capX < margin ∨ capX > bW - margin ∨ capY < margin ∨ capY > bH - margin then
            caps
          else
            let cap : Comp := ⟨1, 1/2, 2, capX, capY, 0, 0, .cap, "capacitor_0402"⟩
            if cap.canPlace noiseMap mapH mapW (placed ++ caps) then caps ++ [cap]
            else caps) acc,
        cp.compType = CompType.cap ∧
          margin ≤ cp.x ∧ cp.x ≤ bW - margin ∧ margin ≤ cp.y ∧ cp.y ≤ bH - margin := by
  intro offsets
  induction offsets with
  | nil => intro acc hg hz; exact ⟨hg, hz⟩
  | cons off rest ih =>
    intro acc hg hz
    rw [List.foldl_cons]
    dsimp only
    split
    · exact ih acc hg hz
    · rename_i hbounds
      push_neg at hbounds
      split
      · rename_i hcp
        apply ih
        · rw [← List.append_assoc]
          apply good_append hg
          intro p hp
          exact canPlace_overlaps hcp p hp
        · intro cp hcp2
          rcases List.mem_append.mp hcp2 with h2 | h2
          · exact hz cp h2
          · rcases List.mem_singleton.mp h2 with rfl
            exact ⟨rfl, by linarith [hbounds.1], by linarith [hbounds.2.1],
              by linarith [hbounds.2.2.1], by linarith [hbounds.2.2.2]⟩
      · exact ih acc hg hz

theorem placeDecouplingCapsNear_sound (noiseMap : ℕ → ℕ → ℚ) (mapH mapW : ℕ)
    (bW bH margin : ℚ) (placed : List Comp) (largeComp : Comp) (count : ℕ)
    (hg : placed.Pairwise
      (fun a b => b.overlapsWith a (appliedClearance b) = false)) :
    (placed ++ placeDecouplingCapsNear noiseMap mapH mapW bW bH margin placed
      largeComp count).Pairwise
      (fun a b => b.overlapsWith a (appliedClearance b) = false) ∧
    ∀ cp ∈ placeDecouplingCapsNear noiseMap mapH mapW bW bH margin placed
        largeComp count,
      cp.compType = CompType.cap ∧
        margin ≤ cp.x ∧ cp.x ≤ bW - margin ∧ margin ≤ cp.y ∧ cp.y ≤ bH - margin := by
  unfold placeDecouplingCapsNear
  exact capsFoldAux noiseMap mapH mapW bW bH margin placed largeComp _ []
    (by rw [List.append_nil]; exact hg) (by simp)

theorem appliedClearance_eq {c : Comp} (h1 : c.compType ≠ CompType.cap)
    (h2 : c.compType ≠ CompType.connector)
    (h3 : c.compType ≠ CompType.testpoint) :
    appliedClearance c = minSpacingFor c.numPins := by
  unfold appliedClearance
  cases hcomp : c.compType
  case cap => exact absurd hcomp h1
  case connector => exact absurd hcomp h2
  case testpoint => exact absurd hcomp h3
  all_goals rfl

theorem zoneOK_of_interior {margin bW bH : ℚ} {c : Comp}
    (h1 : c.compType ≠ CompType.cap) (h2 : c.compType ≠ CompType.connector)
    (h : interiorBox margin bW bH c) : zoneOK margin bW bH c := by
  unfold zoneOK
  cases hcomp : c.compType
  case cap => exact absurd hcomp h1
  case connector => exact absurd hcomp h2
  all_goals exact h

theorem connectorPos_cases (bW bH margin dw dh : ℚ) (ei : ℕ) (r : Rng)
    (s : RState) :
    (connectorPos bW bH margin dw dh ei r s).1 = margin / 2 ∨
    (connectorPos bW bH margin dw dh ei r s).1 = bW - margin / 2 ∨
    (connectorPos bW bH margin dw dh ei r s).2.1 = margin / 2 ∨
    (connectorPos bW bH margin dw dh ei r s).2.1 = bH - margin / 2 := by
  unfold connectorPos
  split
  · exact Or.inl rfl
  · split
    · exact Or.inr (Or.inl rfl)
    · split
      · exact Or.inr (Or.inr (Or.inl rfl))
      · exact Or.inr (Or.inr (Or.inr rfl))

theorem tryPlaceConnector_sound (bW bH margin : ℚ) (fps : List Footprint)
    (placed : List Comp) (r : Rng) :
    ∀ (attempts : ℕ) (s : RState) (c : Comp),
      (tryPlaceConnector bW bH margin fps placed r attempts s).1 = some c →
      (∀ p ∈ placed, c.overlapsWith p 3 = false) ∧
        c.compType = CompType.connector ∧
        (c.x = margin / 2 ∨ c.x = bW - margin / 2 ∨ c.y = margin / 2 ∨
          c.y = bH - margin / 2) := by
  intro attempts
  induction attempts with
  | zero => intro s c h; cases h
  | succ m ih =>
    intro s c h
    simp only [tryPlaceConnector] at h
    split at h <;> split at h <;>
      first
        | exact ih _ c h
        | · rename_i hall
            simp only [Option.some.injEq] at h
            subst h
            refine ⟨?_, rfl, ?_⟩
            · intro p hp
              have h3 := List.all_eq_true.mp hall p hp
              simpa using h3
            · exact connectorPos_cases bW bH margin _ _ _ r _

theorem tryPlaceTestpoint_sound (bW bH margin : ℚ) (fps : List Footprint)
    (placed : List Comp) (cosT sinT : ℚ → ℚ) (r : Rng) :
    ∀ (attempts : ℕ) (s : RState) (c : Comp),
      (tryPlaceTestpoint bW bH margin fps placed cosT sinT r attempts s).1 =
        some c →
      (∀ p ∈ placed, c.overlapsWith p 2 = false) ∧
        c.compType = CompType.testpoint ∧ interiorBox margin bW bH c := by
  intro attempts
  induction attempts with
  | zero => intro s c h; cases h
  | succ m ih =>
    intro s c h
    simp only [tryPlaceTestpoint] at h
    split at h
    · exact ih _ c h
    · rename_i hzone
      split at h
      · rename_i hall
        simp only [Option.some.injEq] at h
        subst h
        push_neg at hzone
        refine ⟨?_, rfl, ?_⟩
        · intro p hp
          have h3 := List.all_eq_true.mp hall p hp
          simpa using h3
        · exact ⟨hzone.1, hzone.2.1, hzone.2.2.1, hzone.2.2.2⟩
      · exact ih _ c h

theorem zoneOK_of_cap {margin bW bH : ℚ} {c : Comp}
    (h : c.compType = CompType.cap)
    (hb : margin ≤ c.x ∧ c.x ≤ bW - margin ∧ margin ≤ c.y ∧ c.y ≤ bH - margin) :
    zoneOK margin bW bH c := by
  unfold zoneOK
  rw [h]
  exact hb

theorem zoneOK_of_connector {margin bW bH : ℚ} {c : Comp}
    (h : c.compType = CompType.connector)
    (hb : c.x = margin / 2 ∨ c.x = bW - margin / 2 ∨ c.y = margin / 2 ∨
      c.y = bH - margin / 2) :
    zoneOK margin bW bH c := by
  unfold zoneOK
  rw [h]
  exact hb

theorem zoneOK_of_testpoint {margin bW bH : ℚ} {c : Comp}
    (h : c.compType = CompType.testpoint) (hb : interiorBox margin bW bH c) :
    zoneOK margin bW bH c := by
  unfold zoneOK
  rw [h]
  exact hb

theorem packLoop_inv (noiseMap : ℕ → ℕ → ℚ) (mapH mapW : ℕ) (bW bH margin : ℚ)
    (fps : List Footprint) (preferredCells allCells : List GridCell)
    (gridSpacing : ℚ) (ctype : CompType) (allowRotation : Bool) (r : Rng)
    (hc1 : ctype ≠ CompType.cap) (hc2 : ctype ≠ CompType.connector)
    (hc3 : ctype ≠ CompType.testpoint) :
    ∀ (n : ℕ) (placed : List Comp) (occ : List (ℤ × ℤ)) (s : RState),
      placed.Pairwise (fun a b => b.overlapsWith a (appliedClearance b) = false) →
      (0 ≤ margin → ∀ c ∈ placed, zoneOK margin bW bH c) →
      (packLoop noiseMap mapH mapW bW bH margin fps preferredCells allCells
        gridSpacing ctype allowRotation r n placed occ s).1.Pairwise
        (fun a b => b.overlapsWith a (appliedClearance b) = false) ∧
      (0 ≤ margin →
        ∀ c ∈ (packLoop noiseMap mapH mapW bW bH margin fps preferredCells
          allCells gridSpacing ctype allowRotation r n placed occ s).1,
          zoneOK margin bW bH c) := by
  intro n
  induction n with
  | zero => intro placed occ s hg hz; exact ⟨hg, hz⟩
  | succ m ih =>
    intro placed occ s hg hz
    simp only [packLoop]
    split
    · rename_i c key s1 heq
      have hres : (tryPlaceComponent noiseMap mapH mapW bW bH margin fps
          preferredCells allCells gridSpacing ctype allowRotation placed occ r
          s).1 = some (c, key) := by rw [heq]
      have hs := tryPlaceComponent_sound hres
      have hcc1 : c.compType ≠ CompType.cap := by rw [hs.2.1]; exact hc1
      have hcc2 : c.compType ≠ CompType.connector := by rw [hs.2.1]; exact hc2
      have hcc3 : c.compType ≠ CompType.testpoint := by rw [hs.2.1]; exact hc3
      apply ih
      · apply good_append hg
        intro p hp
        rw [appliedClearance_eq hcc1 hcc2 hcc3]
        exact hs.1 p hp
      · intro hm c2 h2m
        rcases List.mem_append.mp h2m with h2 | h2
        · exact hz hm c2 h2
        · rcases List.mem_singleton.mp h2 with rfl
          exact zoneOK_of_interior hcc1 hcc2 (hs.2.2 hm)
    · rename_i s1 heq
      exact ih placed occ s1 hg hz

theorem packLoopLarge_inv (noiseMap : ℕ → ℕ → ℚ) (mapH mapW : ℕ)
    (bW bH margin : ℚ) (preferredCells allCells : List GridCell)
    (gridSpacing : ℚ) (r : Rng) :
    ∀ (n : ℕ) (placed : List Comp) (occ : List (ℤ × ℤ)) (s : RState),
      placed.Pairwise (fun a b => b.overlapsWith a (appliedClearance b) = false) →
      (0 ≤ margin → ∀ c ∈ placed, zoneOK margin bW bH c) →
      (packLoopLarge noiseMap mapH mapW bW bH margin preferredCells allCells
        gridSpacing r n placed occ s).1.Pairwise
        (fun a b => b.overlapsWith a (appliedClearance b) = false) ∧
      (0 ≤ margin →
        ∀ c ∈ (packLoopLarge noiseMap mapH mapW bW bH margin preferredCells
          allCells gridSpacing r n placed occ s).1,
          zoneOK margin bW bH c) := by
  intro n
  induction n with
  | zero => intro placed occ s hg hz; exact ⟨hg, hz⟩
  | succ m ih =>
    intro placed occ s hg hz
    simp only [packLoopLarge]
    split
    · rename_i c key s1 heq
      have hres : (tryPlaceComponent noiseMap mapH mapW bW bH margin
          LARGE_FOOTPRINTS preferredCells allCells gridSpacing .large false
          placed occ r s).1 = some (c, key) := by rw [heq]
      have hs := tryPlaceComponent_sound hres
      have hcc1 : c.compType ≠ CompType.cap := by rw [hs.2.1]; exact (by decide)
      have hcc2 : c.compType ≠ CompType.connector := by rw [hs.2.1]; exact (by decide)
      have hcc3 : c.compType ≠ CompType.testpoint := by rw [hs.2.1]; exact (by decide)
      have hg1 : (placed ++ [c]).Pairwise
          (fun a b => b.overlapsWith a (appliedClearance b) = false) := by
        apply good_append hg
        intro p hp
        rw [appliedClearance_eq hcc1 hcc2 hcc3]
        exact hs.1 p hp
      have hcaps := placeDecouplingCapsNear_sound noiseMap mapH mapW bW bH
        margin (placed ++ [c]) c (2 + (drawInt r s1 3).1) hg1
      apply ih
      · exact hcaps.1
      · intro hm c2 h2m
        rcases List.mem_append.mp h2m with h2 | h2
        · rcases List.mem_append.mp h2 with h3 | h3
          · exact hz hm c2 h3
          · rcases List.mem_singleton.mp h3 with rfl
            exact zoneOK_of_interior hcc1 hcc2 (hs.2.2 hm)
        · exact zoneOK_of_cap (hcaps.2 c2 h2).1 (hcaps.2 c2 h2).2
    · rename_i s1 heq
      exact ih placed occ s1 hg hz

theorem connLoop_inv (bW bH margin : ℚ) (r : Rng) :
    ∀ (n : ℕ) (placed : List Comp) (s : RState),
      placed.Pairwise (fun a b => b.overlapsWith a (appliedClearance b) = false) →
      (0 ≤ margin → ∀ c ∈ placed, zoneOK margin bW bH c) →
      (connLoop bW bH margin r n placed s).1.Pairwise
        (fun a b => b.overlapsWith a (appliedClearance b) = false) ∧
      (0 ≤ margin → ∀ c ∈ (connLoop bW bH margin r n placed s).1,
        zoneOK margin bW bH c) := by
  intro n
  induction n with
  | zero => intro placed s hg hz; exact ⟨hg, hz⟩
  | succ m ih =>
    intro placed s hg hz
    simp only [connLoop]
    split
    · rename_i c s1 heq
      have hres : (tryPlaceConnector bW bH margin CONNECTOR_FOOTPRINTS placed r
          100 s).1 = some c := by rw [heq]
      have hs := tryPlaceConnector_sound bW bH margin CONNECTOR_FOOTPRINTS
        placed r 100 s c hres
      apply ih
      · apply good_append hg
        intro p hp
        have hap : appliedClearance c = 3 := by
          unfold appliedClearance
          rw [hs.2.1]
        rw [hap]
        exact hs.1 p hp
      · intro hm c2 h2m
        rcases List.mem_append.mp h2m with h2 | h2
        · exact hz hm c2 h2
        · rcases List.mem_singleton.mp h2 with rfl
          exact zoneOK_of_connector hs.2.1 hs.2.2
    · rename_i s1 heq
      exact ih placed s1 hg hz

theorem tpLoop_inv (bW bH margin : ℚ) (cosT sinT : ℚ → ℚ) (r : Rng) :
    ∀ (n : ℕ) (placed : List Comp) (s : RState),
      placed.Pairwise (fun a b => b.overlapsWith a (appliedClearance b) = false) →
      (0 ≤ margin → ∀ c ∈ placed, zoneOK margin bW bH c) →
      (tpLoop bW bH margin cosT sinT r n placed s).1.Pairwise
        (fun a b => b.overlapsWith a (appliedClearance b) = false) ∧
      (0 ≤ margin → ∀ c ∈ (tpLoop bW bH margin cosT sinT r n placed s).1,
        zoneOK margin bW bH c) := by
  intro n
  induction n with
  | zero => intro placed s hg hz; exact ⟨hg, hz⟩
  | succ m ih =>
    intro placed s hg hz
    simp only [tpLoop]
    split
    · rename_i c s1 heq
      have hres : (tryPlaceTestpoint bW bH margin TESTPOINT_FOOTPRINTS placed
          cosT sinT r 50 s).1 = some c := by rw [heq]
      have hs := tryPlaceTestpoint_sound bW bH margin TESTPOINT_FOOTPRINTS
        placed cosT sinT r 50 s c hres
      apply ih
      · apply good_append hg
        intro p hp
        have hap : appliedClearance c = 2 := by
          unfold appliedClearance
          rw [hs.2.1]
        rw [hap]
        exact hs.1 p hp
      · intro hm c2 h2m
        rcases List.mem_append.mp h2m with h2 | h2
        · exact hz hm c2 h2
        · rcases List.mem_singleton.mp h2 with rfl
          exact zoneOK_of_testpoint hs.2.1 hs.2.2
    · rename_i s1 heq
      exact ih placed s1 hg hz

theorem packCore_inv (noiseMap : ℕ → ℕ → ℚ) (bW bH : ℚ) (cosT sinT : ℚ → ℚ)
    (p : PackParams) (r : Rng) (s0 : RState) (fuel : ℕ) :
    (placeComponentsCore noiseMap bW bH cosT sinT p r s0 fuel).1.Pairwise
      (fun a b => b.overlapsWith a (appliedClearance b) = false) ∧
    (0 ≤ bW * (1/10) →
      ∀ c ∈ (placeComponentsCore noiseMap bW bH cosT sinT p r s0 fuel).1,
        zoneOK (bW * (1/10)) bW bH c) := by
  have hnil : (0 ≤ bW * (1/10) →
      ∀ c ∈ ([] : List Comp), zoneOK (bW * (1/10)) bW bH c) := by
    intro _ c h
    cases h
  set mapH := qIdx bH with hmapH
  set mapW := qIdx bW with hmapW
  set grid := createAdaptiveGrid noiseMap mapH mapW p.gridSizes (3/10) fuel
    with hgrid
  set g1 := p.gridSizes.getD 0 0 with hg1
  set g2 := p.gridSizes.getD 1 0 with hg2
  set g3 := p.gridSizes.getD 2 0 with hg3
  set g4 := p.gridSizes.getD 3 0 with hg4
  set margin := bW * (1/10) with hmargin
  have h1 := packLoopLarge_inv noiseMap mapH mapW bW bH margin
    (grid.filter (fun c => c.w ≥ g1 - 1)) grid p.largeSpacing r
    p.largeCount [] [] s0 List.Pairwise.nil hnil
  set st1 := packLoopLarge noiseMap mapH mapW bW bH margin
    (grid.filter (fun c => c.w ≥ g1 - 1)) grid p.largeSpacing r
    p.largeCount [] [] s0 with hst1
  have h2 := packLoop_inv noiseMap mapH mapW bW bH margin SMALL_FOOTPRINTS
    (grid.filter (fun c => g2 - 1 ≤ c.w ∧ c.w < g1 - 1)) grid p.smallSpacing
    .small true r (by decide) (by decide) (by decide)
    (pyTrunc ((p.smallCount : ℚ) * (2/5))).toNat st1.1 st1.2.1 st1.2.2 h1.1 h1.2
  set st2 := packLoop noiseMap mapH mapW bW bH margin SMALL_FOOTPRINTS
    (grid.filter (fun c => g2 - 1 ≤ c.w ∧ c.w < g1 - 1)) grid p.smallSpacing
    .small true r (pyTrunc ((p.smallCount : ℚ) * (2/5))).toNat st1.1 st1.2.1
    st1.2.2 with hst2
  have h3 := packLoop_inv noiseMap mapH mapW bW bH margin MEDIUM_FOOTPRINTS
    (grid.filter (fun c => g3 - 1/2 ≤ c.w ∧ c.w < g2 - 1)) grid p.mediumSpacing
    .medium true r (by decide) (by decide) (by decide)
    p.mediumCount st2.1 st2.2.1 st2.2.2 h2.1 h2.2
  set st3 := packLoop noiseMap mapH mapW bW bH margin MEDIUM_FOOTPRINTS
    (grid.filter (fun c => g3 - 1/2 ≤ c.w ∧ c.w < g2 - 1)) grid p.mediumSpacing
    .medium true r p.mediumCount st2.1 st2.2.1 st2.2.2 with hst3
  have h4 := packLoop_inv noiseMap mapH mapW bW bH margin SMALL_MED_FOOTPRINTS
    (grid.filter (fun c => g4 - 1/2 ≤ c.w ∧ c.w < g3 - 1/2)) grid
    p.smallMedSpacing .smallMed true r (by decide) (by decide) (by decide)
    p.smallMedCount st3.1 st3.2.1 st3.2.2 h3.1 h3.2
  set st4 := packLoop noiseMap mapH mapW bW bH margin SMALL_MED_FOOTPRINTS
    (grid.filter (fun c => g4 - 1/2 ≤ c.w ∧ c.w < g3 - 1/2)) grid
    p.smallMedSpacing .smallMed true r p.smallMedCount st3.1 st3.2.1 st3.2.2
    with hst4
  have h5 := packLoop_inv noiseMap mapH mapW bW bH margin SMALL_FOOTPRINTS
    (grid.filter (fun c => c.w < g4 - 1/2)) grid p.smallSpacing .small true r
    (by decide) (by decide) (by decide)
    (pyTrunc ((p.smallCount : ℚ) * (3/5))).toNat st4.1 st4.2.1 st4.2.2 h4.1 h4.2
  set st5 := packLoop noiseMap mapH mapW bW bH margin SMALL_FOOTPRINTS
    (grid.filter (fun c => c.w < g4 - 1/2)) grid p.smallSpacing .small true r
    (pyTrunc ((p.smallCount : ℚ) * (3/5))).toNat st4.1 st4.2.1 st4.2.2 with hst5
  have h6 := connLoop_inv bW bH margin r p.connectorCount st5.1 st5.2.2 h5.1 h5.2
  set st6 := connLoop bW bH margin r p.connectorCount st5.1 st5.2.2 with hst6
  have h7 := tpLoop_inv bW bH margin cosT sinT r p.testpointCount st6.1 st6.2
    h6.1 h6.2
  exact h7

/-- C1 (amended): the packer's emitted placements are pairwise separated,
each later placement's bounding box inflated by the clearance the code
applies to it - the pin-count tier (3.0mm above 64 pins, 2.0mm above 16,
else 1.5mm) for grid components, 3.0mm for connectors, 2.0mm for
testpoints, but only can_place's default 1.0mm for decoupling
companions - never overlapping an earlier placement's box. -/
theorem C1_amended (noiseMap : ℕ → ℕ → ℚ) (bW bH : ℚ) (cosT sinT : ℚ → ℚ)
    (p : PackParams) (r : Rng) (s0 : RState) (fuel : ℕ) :
    (placeComponentsCore noiseMap bW bH cosT sinT p r s0 fuel).1.Pairwise
      (fun a b => b.overlapsWith a (appliedClearance b) = false) :=
  (packCore_inv noiseMap bW bH cosT sinT p r s0 fuel).1

/-- C1 witness: the amended pairwise-separation theorem instantiated on
the concrete two-large-components run. -/
theorem C1_witness :
    packRunA.Pairwise
      (fun a b => b.overlapsWith a (appliedClearance b) = false) :=
  C1_amended fieldA 80 80 (fun _ => 0) (fun _ => 0) packParamsA packRngA
    ⟨0, 0⟩ 20

/-- C2 (amended): the edge margin is 10% of the board width on all four
sides; grid components keep their unrotated-dimension bounding box inside
the interior rectangle; decoupling companions are only guaranteed to have
their centers there; testpoints keep their box there; and connectors are
centered on the midline of the margin band of their chosen edge, with no
guarantee on their box. -/
theorem C2_amended (noiseMap : ℕ → ℕ → ℚ) (bW bH : ℚ) (cosT sinT : ℚ → ℚ)
    (p : PackParams) (r : Rng) (s0 : RState) (fuel : ℕ) (hW : 0 ≤ bW) :
    ∀ c ∈ (placeComponentsCore noiseMap bW bH cosT sinT p r s0 fuel).1,
      zoneOK (bW * (1/10)) bW bH c :=
  (packCore_inv noiseMap bW bH cosT sinT p r s0 fuel).2
    (mul_nonneg hW (by norm_num))

section WitnessEvalB

attribute [local semireducible] Rat.add Rat.sub Rat.mul Rat.inv

set_option maxRecDepth 10000

/-- C2 witness: the amended zone theorem instantiated on the concrete
single-connector run, whose connector sits on the left band midline. -/
theorem C2_witness :
    zoneOK (80 * (1/10)) 80 80 (packRunB.getD 0 default) :=
  C2_amended fieldA 80 80 (fun _ => 0) (fun _ => 0) packParamsB packRngB
    ⟨0, 0⟩ 20 (by norm_num) (packRunB.getD 0 default) (by decide)

end WitnessEvalB

end PCB
